import Mathlib

/-!
Verification development for the `crust-render` path tracer.

The Rust sources are embedded shallowly: `f32` arithmetic is idealized as
exact real arithmetic (ℝ), except for the AABB slab test, whose behaviour
on reciprocals of zero is modelled with an explicit extended-value type
(`EF`) mirroring IEEE-754 semantics of `f32` (infinities, NaN, and the
NaN-ignoring `f32::max`/`f32::min`).  Fallible operations return `Option`.
Randomness (`utils::random()` et al.) is modelled by passing the drawn
values explicitly, in the order the code draws them.
-/

namespace CrustRender

/-- 3-component vector over ℝ, modelling `utils::Vec3` / `glam::Vec3A`
(three `f32` components). -/
@[ext]
structure Vec3 where
  x : ℝ
  y : ℝ
  z : ℝ

namespace Vec3

/-- `Vec3::new` -/
def mk3 (x y z : ℝ) : Vec3 := ⟨x, y, z⟩

instance : Add Vec3 := ⟨fun u v => ⟨u.x + v.x, u.y + v.y, u.z + v.z⟩⟩
instance : Sub Vec3 := ⟨fun u v => ⟨u.x - v.x, u.y - v.y, u.z - v.z⟩⟩
instance : Neg Vec3 := ⟨fun v => ⟨-v.x, -v.y, -v.z⟩⟩
/-- componentwise product (`impl Mul for Vec3`). -/
instance : Mul Vec3 := ⟨fun u v => ⟨u.x * v.x, u.y * v.y, u.z * v.z⟩⟩
instance : SMul ℝ Vec3 := ⟨fun t v => ⟨t * v.x, t * v.y, t * v.z⟩⟩
instance : Zero Vec3 := ⟨⟨0, 0, 0⟩⟩

/-- `Vec3 / f32` -/
noncomputable def divS (v : Vec3) (t : ℝ) : Vec3 := ⟨v.x / t, v.y / t, v.z / t⟩

@[simp] theorem add_def (u v : Vec3) :
    u + v = ⟨u.x + v.x, u.y + v.y, u.z + v.z⟩ := rfl
@[simp] theorem sub_def (u v : Vec3) :
    u - v = ⟨u.x - v.x, u.y - v.y, u.z - v.z⟩ := rfl
@[simp] theorem neg_def (v : Vec3) : -v = ⟨-v.x, -v.y, -v.z⟩ := rfl
@[simp] theorem mul_def (u v : Vec3) :
    u * v = ⟨u.x * v.x, u.y * v.y, u.z * v.z⟩ := rfl
@[simp] theorem smul_def (t : ℝ) (v : Vec3) :
    t • v = ⟨t * v.x, t * v.y, t * v.z⟩ := rfl
@[simp] theorem zero_def : (0 : Vec3) = ⟨0, 0, 0⟩ := rfl

/-- `Vec3::length_squared` -/
def length_squared (v : Vec3) : ℝ := v.x * v.x + v.y * v.y + v.z * v.z

/-- `Vec3::length` (`f32::sqrt`) -/
noncomputable def length (v : Vec3) : ℝ := Real.sqrt v.length_squared

end Vec3

/-- `utils::dot` -/
def dot (u v : Vec3) : ℝ := u.x * v.x + u.y * v.y + u.z * v.z

/-- `utils::cross` -/
def cross (u v : Vec3) : Vec3 :=
  ⟨u.y * v.z - u.z * v.y, u.z * v.x - u.x * v.z, u.x * v.y - u.y * v.x⟩

/-- `utils::unit_vector` (`v / v.length()`) -/
noncomputable def unit_vector (v : Vec3) : Vec3 := v.divS v.length

/-- `utils::reflect`: `v - 2*dot(v,n)*n` -/
def reflect (v n : Vec3) : Vec3 := v - (2 * dot v n) • n

/-- Colors are vectors (`pub type Color = Vec3`). -/
abbrev Color := Vec3

/-- `Ray { orig, dir }` -/
structure Ray where
  orig : Vec3
  dir : Vec3

/-- `Ray::at`: `orig + t * dir` -/
def Ray.at (r : Ray) (t : ℝ) : Vec3 := r.orig + t • r.dir

/-- `utils::balance_heuristic`:
`pdf_a²/(pdf_a² + pdf_b² + 1e-6)` (`crates/utils/src/common.rs`). -/
noncomputable def balance_heuristic (pdf_a pdf_b : ℝ) : ℝ :=
  let pdf_a2 := pdf_a * pdf_a
  let pdf_b2 := pdf_b * pdf_b
  pdf_a2 / (pdf_a2 + pdf_b2 + 1e-6)

/-- `AABB { minimum, maximum }` -/
@[ext]
structure AABB where
  minimum : Vec3
  maximum : Vec3

/-- `AABB::surrounding_box`: componentwise min of minima, max of maxima. -/
noncomputable def surrounding_box (box0 box1 : AABB) : AABB :=
  { minimum := ⟨min box0.minimum.x box1.minimum.x,
                min box0.minimum.y box1.minimum.y,
                min box0.minimum.z box1.minimum.z⟩,
    maximum := ⟨max box0.maximum.x box1.maximum.x,
                max box0.maximum.y box1.maximum.y,
                max box0.maximum.z box1.maximum.z⟩ }

/-- Box `outer` contains box `inner` (componentwise bounds). -/
def containsBox (outer inner : AABB) : Prop :=
  outer.minimum.x ≤ inner.minimum.x ∧ outer.minimum.y ≤ inner.minimum.y ∧
  outer.minimum.z ≤ inner.minimum.z ∧ inner.maximum.x ≤ outer.maximum.x ∧
  inner.maximum.y ≤ outer.maximum.y ∧ inner.maximum.z ≤ outer.maximum.z

/-- `aabb::triangle_aabb` -/
noncomputable def triangle_aabb (v0 v1 v2 : Vec3) : AABB :=
  { minimum := ⟨min (min v0.x v1.x) v2.x, min (min v0.y v1.y) v2.y,
                min (min v0.z v1.z) v2.z⟩,
    maximum := ⟨max (max v0.x v1.x) v2.x, max (max v0.y v1.y) v2.y,
                max (max v0.z v1.z) v2.z⟩ }

/-- C8: the MIS combination weight equals `a²/(a²+b²+ε)` and lies in `[0,1]`
for strictly positive inputs. -/
theorem balance_heuristic_formula_mem_unit (pdf_a pdf_b : ℝ)
    (ha : 0 < pdf_a) (hb : 0 < pdf_b) :
    balance_heuristic pdf_a pdf_b
      = pdf_a * pdf_a / (pdf_a * pdf_a + pdf_b * pdf_b + 1e-6) ∧
    0 ≤ balance_heuristic pdf_a pdf_b ∧ balance_heuristic pdf_a pdf_b ≤ 1 := by
  have hden : (0:ℝ) < pdf_a * pdf_a + pdf_b * pdf_b + 1e-6 := by nlinarith
  refine ⟨rfl, ?_, ?_⟩
  · exact div_nonneg (by nlinarith) hden.le
  · rw [balance_heuristic, div_le_one hden]
    nlinarith

/-- Witness for C8 at `pdf_a = 1`, `pdf_b = 2`. -/
theorem balance_heuristic_formula_mem_unit_witness :
    balance_heuristic 1 2 = 1 * 1 / (1 * 1 + 2 * 2 + 1e-6) ∧
    0 ≤ balance_heuristic 1 2 ∧ balance_heuristic 1 2 ≤ 1 :=
  balance_heuristic_formula_mem_unit 1 2 (by norm_num) (by norm_num)

/-- C9: `surrounding_box` is the componentwise min/max construction, contains
both inputs, is the least box containing both (tight to the inputs'
extrema), and is commutative and associative. -/
theorem surrounding_box_union_properties (A B : AABB) :
    (surrounding_box A B =
      { minimum := ⟨min A.minimum.x B.minimum.x, min A.minimum.y B.minimum.y,
                    min A.minimum.z B.minimum.z⟩,
        maximum := ⟨max A.maximum.x B.maximum.x, max A.maximum.y B.maximum.y,
                    max A.maximum.z B.maximum.z⟩ }) ∧
    containsBox (surrounding_box A B) A ∧
    containsBox (surrounding_box A B) B ∧
    (∀ C : AABB, containsBox C A → containsBox C B →
      containsBox C (surrounding_box A B)) ∧
    surrounding_box A B = surrounding_box B A ∧
    (∀ C : AABB, surrounding_box (surrounding_box A B) C
      = surrounding_box A (surrounding_box B C)) := by
  refine ⟨rfl, ?_, ?_, ?_, ?_, ?_⟩
  · exact ⟨min_le_left _ _, min_le_left _ _, min_le_left _ _,
      le_max_left _ _, le_max_left _ _, le_max_left _ _⟩
  · exact ⟨min_le_right _ _, min_le_right _ _, min_le_right _ _,
      le_max_right _ _, le_max_right _ _, le_max_right _ _⟩
  · rintro C ⟨a1, a2, a3, a4, a5, a6⟩ ⟨b1, b2, b3, b4, b5, b6⟩
    exact ⟨le_min a1 b1, le_min a2 b2, le_min a3 b3,
      max_le a4 b4, max_le a5 b5, max_le a6 b6⟩
  · ext <;> simp [surrounding_box] <;>
      first
        | exact min_comm _ _
        | exact max_comm _ _
  · intro C
    ext <;> simp [surrounding_box] <;>
      first
        | exact min_assoc _ _ _
        | exact max_assoc _ _ _

/-- Witness for C9: concrete boxes, with the minimality conjunct applied to
an enclosing box. -/
theorem surrounding_box_union_properties_witness :
    containsBox (surrounding_box
        (AABB.mk (Vec3.mk3 0 0 0) (Vec3.mk3 1 1 1))
        (AABB.mk (Vec3.mk3 (-1) 0 0) (Vec3.mk3 2 1 1)))
      (AABB.mk (Vec3.mk3 0 0 0) (Vec3.mk3 1 1 1)) ∧
    containsBox (AABB.mk (Vec3.mk3 (-2) (-2) (-2)) (Vec3.mk3 3 3 3))
      (surrounding_box (AABB.mk (Vec3.mk3 0 0 0) (Vec3.mk3 1 1 1))
        (AABB.mk (Vec3.mk3 (-1) 0 0) (Vec3.mk3 2 1 1))) := by
  have h := surrounding_box_union_properties
    (AABB.mk (Vec3.mk3 0 0 0) (Vec3.mk3 1 1 1))
    (AABB.mk (Vec3.mk3 (-1) 0 0) (Vec3.mk3 2 1 1))
  refine ⟨h.2.1, h.2.2.2.1 _ ?_ ?_⟩ <;>
    · refine ⟨?_, ?_, ?_, ?_, ?_, ?_⟩ <;>
        · show (_ : ℝ) ≤ _
          norm_num [Vec3.mk3]

/-! ### Hit records and the Möller–Trumbore triangle test -/

/-- The geometric fields of `HitRecord` (`t`, `p`, `normal`, `front_face`).
The material reference is attached separately at the layer that needs it. -/
structure HitRec where
  t : ℝ
  p : Vec3
  normal : Vec3
  front_face : Bool

/-- `HitRecord::set_face_normal`: orients the outward normal against the ray,
returning `(front_face, normal)`. -/
noncomputable def face_normal (r : Ray) (outward_normal : Vec3) : Bool × Vec3 :=
  if dot r.dir outward_normal < 0 then (true, outward_normal)
  else (false, -outward_normal)

/-- The Möller–Trumbore determinant `a = dot(edge1, cross(dir, edge2))` of
`triangle_hit` (`primitives/triangle.rs`). -/
def triA (v0 v1 v2 : Vec3) (ray : Ray) : ℝ :=
  dot (v1 - v0) (cross ray.dir (v2 - v0))

/-- The barycentric coordinate `u = f * dot(s, h)` of `triangle_hit`. -/
noncomputable def triU (v0 v1 v2 : Vec3) (ray : Ray) : ℝ :=
  (1 / triA v0 v1 v2 ray) * dot (ray.orig - v0) (cross ray.dir (v2 - v0))

/-- The barycentric coordinate `v = f * dot(dir, q)` of `triangle_hit`. -/
noncomputable def triV (v0 v1 v2 : Vec3) (ray : Ray) : ℝ :=
  (1 / triA v0 v1 v2 ray) * dot ray.dir (cross (ray.orig - v0) (v1 - v0))

/-- The ray parameter `t = f * dot(edge2, q)` of `triangle_hit`. -/
noncomputable def triT (v0 v1 v2 : Vec3) (ray : Ray) : ℝ :=
  (1 / triA v0 v1 v2 ray) * dot (v2 - v0) (cross (ray.orig - v0) (v1 - v0))

/-- `triangle_hit` (`primitives/triangle.rs`): Möller–Trumbore ray/triangle
intersection.  The upper bound is `WithTop ℝ` because callers pass
`f32::INFINITY` (`⊤`). -/
noncomputable def triangle_hit (v0 v1 v2 : Vec3) (ray : Ray) (t_min : ℝ)
    (t_max : WithTop ℝ) : Option HitRec :=
  let edge1 := v1 - v0
  let edge2 := v2 - v0
  let h := cross ray.dir edge2
  let a := dot edge1 h
  if |a| < 1e-6 then none
  else
    let f := 1 / a
    let s := ray.orig - v0
    let u := f * dot s h
    if ¬ (0 ≤ u ∧ u ≤ 1) then none
    else
      let q := cross s edge1
      let v := f * dot ray.dir q
      if v < 0 ∨ u + v > 1 then none
      else
        let t := f * dot edge2 q
        if t < t_min ∨ t_max < (t : WithTop ℝ) then none
        else
          let fn := face_normal ray (unit_vector (cross edge1 edge2))
          some { t := t, p := ray.at t, normal := fn.2, front_face := fn.1 }

theorem triangle_hit_none_of_small_det (v0 v1 v2 : Vec3) (ray : Ray)
    (t_min : ℝ) (t_max : WithTop ℝ) (h : |triA v0 v1 v2 ray| < 1e-6) :
    triangle_hit v0 v1 v2 ray t_min t_max = none := by
  rw [triangle_hit]
  simp only [triA] at h
  rw [if_pos h]

theorem triangle_hit_none_of_u (v0 v1 v2 : Vec3) (ray : Ray)
    (t_min : ℝ) (t_max : WithTop ℝ)
    (h : ¬ (0 ≤ triU v0 v1 v2 ray ∧ triU v0 v1 v2 ray ≤ 1)) :
    triangle_hit v0 v1 v2 ray t_min t_max = none := by
  rw [triangle_hit]
  simp only [triU, triA] at h
  split
  · rfl
  · rw [if_pos h]

theorem triangle_hit_none_of_v (v0 v1 v2 : Vec3) (ray : Ray)
    (t_min : ℝ) (t_max : WithTop ℝ)
    (h : triV v0 v1 v2 ray < 0 ∨
      triU v0 v1 v2 ray + triV v0 v1 v2 ray > 1) :
    triangle_hit v0 v1 v2 ray t_min t_max = none := by
  rw [triangle_hit]
  simp only [triU, triV, triA] at h
  by_cases h1 : |dot (v1 - v0) (cross ray.dir (v2 - v0))| < 1e-6
  · rw [if_pos h1]
  · rw [if_neg h1]
    dsimp only
    by_cases h2 : ¬ (0 ≤ 1 / dot (v1 - v0) (cross ray.dir (v2 - v0)) *
        dot (ray.orig - v0) (cross ray.dir (v2 - v0)) ∧
        1 / dot (v1 - v0) (cross ray.dir (v2 - v0)) *
        dot (ray.orig - v0) (cross ray.dir (v2 - v0)) ≤ 1)
    · rw [if_pos h2]
    · rw [if_neg h2, if_pos h]

theorem triangle_hit_none_of_t (v0 v1 v2 : Vec3) (ray : Ray)
    (t_min : ℝ) (t_max : WithTop ℝ)
    (h : triT v0 v1 v2 ray < t_min ∨
      t_max < (triT v0 v1 v2 ray : WithTop ℝ)) :
    triangle_hit v0 v1 v2 ray t_min t_max = none := by
  rw [triangle_hit]
  simp only [triT, triA] at h
  by_cases h1 : |dot (v1 - v0) (cross ray.dir (v2 - v0))| < 1e-6
  · rw [if_pos h1]
  · rw [if_neg h1]
    dsimp only
    by_cases h2 : ¬ (0 ≤ 1 / dot (v1 - v0) (cross ray.dir (v2 - v0)) *
        dot (ray.orig - v0) (cross ray.dir (v2 - v0)) ∧
        1 / dot (v1 - v0) (cross ray.dir (v2 - v0)) *
        dot (ray.orig - v0) (cross ray.dir (v2 - v0)) ≤ 1)
    · rw [if_pos h2]
    · rw [if_neg h2]
      by_cases h3 : 1 / dot (v1 - v0) (cross ray.dir (v2 - v0)) *
          dot ray.dir (cross (ray.orig - v0) (v1 - v0)) < 0 ∨
          1 / dot (v1 - v0) (cross ray.dir (v2 - v0)) *
          dot (ray.orig - v0) (cross ray.dir (v2 - v0)) +
          1 / dot (v1 - v0) (cross ray.dir (v2 - v0)) *
          dot ray.dir (cross (ray.orig - v0) (v1 - v0)) > 1
      · rw [if_pos h3]
      · rw [if_neg h3, if_pos h]

/-- A zero-area triangle has `cross edge1 edge2 = 0`, which forces the
Möller–Trumbore determinant to vanish (scalar triple product identity). -/
theorem triA_eq_zero_of_degenerate (v0 v1 v2 : Vec3) (ray : Ray)
    (h : cross (v1 - v0) (v2 - v0) = 0) : triA v0 v1 v2 ray = 0 := by
  have hx := congrArg Vec3.x h
  have hy := congrArg Vec3.y h
  have hz := congrArg Vec3.z h
  simp only [cross, Vec3.sub_def, Vec3.zero_def] at hx hy hz
  simp only [triA, dot, cross, Vec3.sub_def]
  linear_combination (-ray.dir.x) * hx + (-ray.dir.y) * hy + (-ray.dir.z) * hz

/-- C7: `triangle_hit` rejects near-parallel rays (`|det| < 1e-6`),
out-of-triangle barycentrics, and out-of-interval `t`; and a degenerate
(zero-area) triangle never reports a hit. -/
theorem triangle_hit_rejection (v0 v1 v2 : Vec3) (ray : Ray) (t_min : ℝ)
    (t_max : WithTop ℝ) :
    (|triA v0 v1 v2 ray| < 1e-6 →
      triangle_hit v0 v1 v2 ray t_min t_max = none) ∧
    (¬ (0 ≤ triU v0 v1 v2 ray ∧ triU v0 v1 v2 ray ≤ 1) →
      triangle_hit v0 v1 v2 ray t_min t_max = none) ∧
    (triV v0 v1 v2 ray < 0 ∨ triU v0 v1 v2 ray + triV v0 v1 v2 ray > 1 →
      triangle_hit v0 v1 v2 ray t_min t_max = none) ∧
    (triT v0 v1 v2 ray < t_min ∨ t_max < (triT v0 v1 v2 ray : WithTop ℝ) →
      triangle_hit v0 v1 v2 ray t_min t_max = none) ∧
    (cross (v1 - v0) (v2 - v0) = 0 →
      triangle_hit v0 v1 v2 ray t_min t_max = none) :=
  ⟨triangle_hit_none_of_small_det v0 v1 v2 ray t_min t_max,
   triangle_hit_none_of_u v0 v1 v2 ray t_min t_max,
   triangle_hit_none_of_v v0 v1 v2 ray t_min t_max,
   triangle_hit_none_of_t v0 v1 v2 ray t_min t_max,
   fun h => triangle_hit_none_of_small_det v0 v1 v2 ray t_min t_max
     (by rw [triA_eq_zero_of_degenerate v0 v1 v2 ray h]; norm_num)⟩

/-- Witness for C7: the degenerate triangle `(0,0,0),(1,1,1),(2,2,2)` is
never hit (instantiated for a concrete ray and interval). -/
theorem triangle_hit_rejection_witness :
    cross (Vec3.mk3 1 1 1 - Vec3.mk3 0 0 0) (Vec3.mk3 2 2 2 - Vec3.mk3 0 0 0)
      = 0 ∧
    triangle_hit (Vec3.mk3 0 0 0) (Vec3.mk3 1 1 1) (Vec3.mk3 2 2 2)
      { orig := Vec3.mk3 (-1) 0 0, dir := Vec3.mk3 1 0 0 } 0.001 ⊤ = none := by
  have hc : cross (Vec3.mk3 1 1 1 - Vec3.mk3 0 0 0)
      (Vec3.mk3 2 2 2 - Vec3.mk3 0 0 0) = 0 := by
    simp only [cross, Vec3.sub_def, Vec3.zero_def, Vec3.mk3]
    norm_num
  exact ⟨hc,
    (triangle_hit_rejection (Vec3.mk3 0 0 0) (Vec3.mk3 1 1 1) (Vec3.mk3 2 2 2)
      { orig := Vec3.mk3 (-1) 0 0, dir := Vec3.mk3 1 0 0 } 0.001 ⊤).2.2.2.2 hc⟩

/-! ### Extended values and the AABB slab test (`aabb.rs::AABB::hit`)

The slab test divides by ray direction components, so `f32` infinities and
NaN are reachable (`1.0 / 0.0 = ∞`, `0.0 * ∞ = NaN`).  `EF` models the
`f32` values that arise: finite reals, the two infinities, and NaN.  ℝ has
no negative zero; a zero direction component therefore yields `+∞` as its
reciprocal (the `1.0 / 0.0` case; the `1.0 / -0.0 = -∞` case is the mirror
image and exercises the same code path with `t0`/`t1` swapped). -/

inductive EF where
  | fin (x : ℝ)
  | pinf
  | ninf
  | nan

namespace EF

/-- `1.0 / d` for a finite `d` (IEEE: division by zero gives an infinity). -/
noncomputable def recipOf (d : ℝ) : EF := if d = 0 then pinf else fin (1 / d)

/-- finite `c` times an extended value (IEEE): `0 * ±∞ = NaN`. -/
noncomputable def mulF (c : ℝ) : EF → EF
  | fin x => fin (c * x)
  | pinf => if 0 < c then pinf else if c < 0 then ninf else nan
  | ninf => if 0 < c then ninf else if c < 0 then pinf else nan
  | nan => nan

/-- `f32::max`: returns the other operand when one is NaN. -/
noncomputable def maxE : EF → EF → EF
  | nan, b => b
  | a, nan => a
  | pinf, _ => pinf
  | _, pinf => pinf
  | ninf, b => b
  | a, ninf => a
  | fin x, fin y => fin (max x y)

/-- `f32::min`: returns the other operand when one is NaN. -/
noncomputable def minE : EF → EF → EF
  | nan, b => b
  | a, nan => a
  | ninf, _ => ninf
  | _, ninf => ninf
  | pinf, b => b
  | a, pinf => a
  | fin x, fin y => fin (min x y)

/-- IEEE `<` (comparisons with NaN are false). -/
noncomputable def ltE : EF → EF → Bool
  | nan, _ => false
  | _, nan => false
  | fin x, fin y => decide (x < y)
  | fin _, pinf => true
  | fin _, ninf => false
  | pinf, _ => false
  | ninf, ninf => false
  | ninf, _ => true

/-- IEEE `<=` (comparisons with NaN are false). -/
noncomputable def leE : EF → EF → Bool
  | nan, _ => false
  | _, nan => false
  | fin x, fin y => decide (x ≤ y)
  | fin _, pinf => true
  | fin _, ninf => false
  | pinf, pinf => true
  | pinf, _ => false
  | ninf, _ => true

end EF

/-- Axis accessor (`v[a]` for `a ∈ {0,1,2}`). -/
def Vec3.comp (v : Vec3) : Fin 3 → ℝ
  | 0 => v.x
  | 1 => v.y
  | 2 => v.z

/-- One axis of `AABB::hit`: compute `t0`/`t1` from the reciprocal of the
direction component, swap when the reciprocal is negative, and narrow the
incoming `[t_min, t_max]` interval (the shadowed `let t_min`/`let t_max`
bindings of one loop iteration). -/
noncomputable def slab_step (box : AABB) (ray : Ray) (a : Fin 3)
    (st : EF × EF) : EF × EF :=
  let inv_d := EF.recipOf (ray.dir.comp a)
  let s0 := EF.mulF (box.minimum.comp a - ray.orig.comp a) inv_d
  let s1 := EF.mulF (box.maximum.comp a - ray.orig.comp a) inv_d
  let t0 := if EF.ltE inv_d (EF.fin 0) then s1 else s0
  let t1 := if EF.ltE inv_d (EF.fin 0) then s0 else s1
  (EF.maxE st.1 t0, EF.minE st.2 t1)

/-- The axis loop of `AABB::hit`: the narrowed `t_min`/`t_max` are
`let`-shadowed bindings scoped to one iteration, so every axis narrows the
ORIGINAL interval `st`; the loop early-exits with `false` the moment an
axis's narrowed interval is empty (`t_max <= t_min`). -/
noncomputable def aabb_hit_aux (box : AABB) (ray : Ray) (st : EF × EF) :
    List (Fin 3) → Bool
  | [] => true
  | a :: rest =>
      let st' := slab_step box ray a st
      if EF.leE st'.2 st'.1 then false else aabb_hit_aux box ray st rest

/-- Upper bounds are `f32` values that may be `INFINITY` (`⊤`). -/
noncomputable def toEF : WithTop ℝ → EF
  | ⊤ => EF.pinf
  | (x : ℝ) => EF.fin x

/-- `AABB::hit` (`aabb.rs`): slab test over the three axes, each axis
tested against the original `[t_min, t_max]`. -/
noncomputable def aabb_hit (box : AABB) (ray : Ray) (t_min : ℝ)
    (t_max : WithTop ℝ) : Bool :=
  aabb_hit_aux box ray (EF.fin t_min, toEF t_max) [0, 1, 2]

theorem aabb_hit_aux_false_iff (box : AABB) (ray : Ray) (st : EF × EF)
    (axes : List (Fin 3)) :
    aabb_hit_aux box ray st axes = false ↔
      ∃ a ∈ axes,
        (EF.leE (slab_step box ray a st).2 (slab_step box ray a st).1)
          = true := by
  induction axes with
  | nil => simp [aabb_hit_aux]
  | cons a rest ih =>
    rw [aabb_hit_aux]
    by_cases h : EF.leE (slab_step box ray a st).2 (slab_step box ray a st).1
      = true
    · rw [if_pos h]
      exact ⟨fun _ => ⟨a, by simp, h⟩, fun _ => rfl⟩
    · rw [if_neg h, ih]
      constructor
      · rintro ⟨b, hb, hemp⟩
        exact ⟨b, List.mem_cons_of_mem a hb, hemp⟩
      · rintro ⟨b, hb, hemp⟩
        rcases List.mem_cons.mp hb with rfl | hb2
        · exact absurd hemp h
        · exact ⟨b, hb2, hemp⟩

/-- C6: the slab test is a total boolean function (division by a zero
direction component degenerates to `+∞`, never an error); it returns
`false` exactly when some axis's narrowed interval is empty
(`t_max <= t_min`; the narrowed bounds are `let`-shadowed per iteration,
so each axis narrows the original `[t_min, t_max]`); and on an axis whose
direction component is zero with the ray origin strictly inside that slab,
the `±∞` comparisons leave the interval unchanged (the axis does not
constrain it). -/
theorem aabb_hit_slab_test (box : AABB) (ray : Ray) (t_min : ℝ)
    (t_max : WithTop ℝ) :
    (aabb_hit box ray t_min t_max = true ∨
     aabb_hit box ray t_min t_max = false) ∧
    (∀ a : Fin 3, ray.dir.comp a = 0 →
      EF.recipOf (ray.dir.comp a) = EF.pinf) ∧
    (aabb_hit box ray t_min t_max = false ↔
      ∃ a : Fin 3, (EF.leE
        (slab_step box ray a (EF.fin t_min, toEF t_max)).2
        (slab_step box ray a (EF.fin t_min, toEF t_max)).1) = true) ∧
    (∀ (a : Fin 3) (st : EF × EF), ray.dir.comp a = 0 →
      box.minimum.comp a < ray.orig.comp a →
      ray.orig.comp a < box.maximum.comp a →
      st.1 ≠ EF.nan → st.2 ≠ EF.nan →
      slab_step box ray a st = st) := by
  refine ⟨Bool.eq_false_or_eq_true _, ?_, ?_, ?_⟩
  · intro a ha
    rw [EF.recipOf, if_pos ha]
  · rw [aabb_hit, aabb_hit_aux_false_iff]
    constructor
    · rintro ⟨a, -, h⟩
      exact ⟨a, h⟩
    · rintro ⟨a, h⟩
      have hmem : ∀ b : Fin 3, b ∈ ([0, 1, 2] : List (Fin 3)) := by decide
      exact ⟨a, hmem a, h⟩
  · intro a st ha hlo hhi h1 h2
    have hmin : box.minimum.comp a - ray.orig.comp a < 0 := by linarith
    have hmax : 0 < box.maximum.comp a - ray.orig.comp a := by linarith
    rw [slab_step]
    rw [EF.recipOf, if_pos ha]
    have hlt : EF.ltE EF.pinf (EF.fin 0) = false := rfl
    rw [hlt]
    simp only [Bool.false_eq_true, if_neg, ite_false]
    have h0 : EF.mulF (box.minimum.comp a - ray.orig.comp a) EF.pinf
        = EF.ninf := by
      rw [EF.mulF]
      rw [if_neg (by linarith), if_pos hmin]
    have h1' : EF.mulF (box.maximum.comp a - ray.orig.comp a) EF.pinf
        = EF.pinf := by
      rw [EF.mulF, if_pos hmax]
    rw [h0, h1']
    have hmx : EF.maxE st.1 EF.ninf = st.1 := by
      cases hst : st.1 with
      | fin x => rfl
      | pinf => rfl
      | ninf => rfl
      | nan => exact absurd hst h1
    have hmn : EF.minE st.2 EF.pinf = st.2 := by
      cases hst : st.2 with
      | fin x => rfl
      | pinf => rfl
      | ninf => rfl
      | nan => exact absurd hst h2
    rw [hmx, hmn]

/-- Witness for C6 at a concrete box/ray: axis 2 has zero direction with the
origin inside the slab, so the reciprocal is `+∞` and the slab step leaves
the interval unchanged. -/
theorem aabb_hit_slab_test_witness :
    EF.recipOf ((Ray.mk (Vec3.mk3 0.5 0.5 0.5) (Vec3.mk3 1 0 0)).dir.comp 2)
      = EF.pinf ∧
    slab_step (AABB.mk (Vec3.mk3 0 0 0) (Vec3.mk3 1 1 1))
      (Ray.mk (Vec3.mk3 0.5 0.5 0.5) (Vec3.mk3 1 0 0)) 2
      (EF.fin 0.001, EF.pinf) = (EF.fin 0.001, EF.pinf) := by
  have h := aabb_hit_slab_test (AABB.mk (Vec3.mk3 0 0 0) (Vec3.mk3 1 1 1))
    (Ray.mk (Vec3.mk3 0.5 0.5 0.5) (Vec3.mk3 1 0 0)) 0.001 ⊤
  refine ⟨h.2.1 2 rfl, h.2.2.2 2 (EF.fin 0.001, EF.pinf) rfl ?_ ?_ ?_ ?_⟩
  · show (0 : ℝ) < 0.5; norm_num
  · show (0.5 : ℝ) < 1; norm_num
  · intro hc; cases hc
  · intro hc; cases hc

/-! ### Sphere intersection, primitive lists and the BVH -/

/-- `Sphere::hit` (`primitives/sphere.rs`): quadratic solve, preferring the
smaller root, falling back to the larger one. -/
noncomputable def sphere_hit (center : Vec3) (radius : ℝ) (ray : Ray)
    (t_min : ℝ) (t_max : WithTop ℝ) : Option HitRec :=
  let oc := ray.orig - center
  let a := ray.dir.length_squared
  let half_b := dot oc ray.dir
  let c := oc.length_squared - radius * radius
  let discriminant := half_b * half_b - a * c
  if discriminant < 0 then none
  else
    let sqrt_d := Real.sqrt discriminant
    let root1 := (-half_b - sqrt_d) / a
    let root2 := (-half_b + sqrt_d) / a
    let finish : ℝ → Option HitRec := fun root =>
      let p := ray.at root
      let outward_normal := (p - center).divS radius
      let fn := face_normal ray outward_normal
      some { t := root, p := p, normal := fn.2, front_face := fn.1 }
    if root1 ≤ t_min ∨ t_max ≤ (root1 : WithTop ℝ) then
      if root2 ≤ t_min ∨ t_max ≤ (root2 : WithTop ℝ) then none
      else finish root2
    else finish root1

/-- A leaf primitive of the scene: sphere or (flat) triangle. -/
inductive Prim where
  | sphere (center : Vec3) (radius : ℝ)
  | tri (v0 v1 v2 : Vec3)

/-- Dispatch of `Hittable::hit` over the leaf primitives. -/
noncomputable def prim_hit : Prim → Ray → ℝ → WithTop ℝ → Option HitRec
  | .sphere c r, ray, lo, hi => sphere_hit c r ray lo hi
  | .tri a b c, ray, lo, hi => triangle_hit a b c ray lo hi

/-- `Hittable::bounding_box` for the leaf primitives (`prim.rs`,
`triangle.rs`): sphere is `center ± (r,r,r)`, triangle is `triangle_aabb`. -/
noncomputable def prim_bounding_box : Prim → AABB
  | .sphere c r => ⟨c - ⟨r, r, r⟩, c + ⟨r, r, r⟩⟩
  | .tri a b c => triangle_aabb a b c

/-- `HittableList::hit` (`hittable_list.rs`): test each object, narrowing
`t_max` to the closest hit found so far; the record of the closest hit
survives. -/
noncomputable def list_hit : List Prim → Ray → ℝ → WithTop ℝ → Option HitRec
  | [], _, _, _ => none
  | p :: rest, ray, lo, hi =>
      match prim_hit p ray lo hi with
      | some rec =>
          match list_hit rest ray lo (rec.t : WithTop ℝ) with
          | some rec2 => some rec2
          | none => some rec
      | none => list_hit rest ray lo hi

/-- A built BVH: children are either leaf primitives or inner nodes
(`BVHNode { left, right, bbox }`). -/
inductive HTree where
  | leaf (p : Prim)
  | node (left right : HTree) (bbox : AABB)

/-- The primitives stored beneath a node. -/
def HTree.leaves : HTree → List Prim
  | .leaf p => [p]
  | .node l r _ => l.leaves ++ r.leaves

/-- `Hittable::bounding_box` of a built node (`BVHNode::bounding_box`). -/
noncomputable def HTree.bbox_of : HTree → AABB
  | .leaf p => prim_bounding_box p
  | .node _ _ b => b

/-- `BVHNode::hit` (`bvhnode.rs`): prune via the node box, test the left
child, narrow `t_max` to its hit, then test the right child; the right
result overwrites the left one only if it also hits. -/
noncomputable def bvh_hit : HTree → Ray → ℝ → WithTop ℝ → Option HitRec
  | .leaf p, ray, lo, hi => prim_hit p ray lo hi
  | .node l r bbox, ray, lo, hi =>
      if ¬ aabb_hit bbox ray lo hi then none
      else
        match bvh_hit l ray lo hi with
        | some recL =>
            match bvh_hit r ray lo (recL.t : WithTop ℝ) with
            | some recR => some recR
            | none => some recL
        | none => bvh_hit r ray lo hi

/-- The sort key used by `AABB::compare_x/y/z`: the box minimum on the
chosen axis (axis 0 → x, 1 → y, anything else → z, as in the `match` of
`BVHNode::build`). -/
noncomputable def axis_key (axis : ℕ) (p : Prim) : ℝ :=
  match axis with
  | 0 => (prim_bounding_box p).minimum.x
  | 1 => (prim_bounding_box p).minimum.y
  | _ => (prim_bounding_box p).minimum.z

/-- `BVHNode::build` (`bvhnode.rs`).  The random split-axis choice is
supplied by `pick`; recursion is fuelled, with `none` meaning the
recursion did not terminate within `fuel` steps (the Rust code recurses
unconditionally in the default arm, so an empty input recurses on the
empty list forever). -/
noncomputable def bvh_build (pick : List Prim → ℕ) :
    ℕ → List Prim → Option HTree
  | 0, _ => none
  | fuel + 1, objects =>
      let axis := pick objects
      let sorted := objects.mergeSort
        (fun a b => decide (axis_key axis a ≤ axis_key axis b))
      match sorted with
      | [o] => some (.leaf o)
      | [o1, o2] =>
          some (.node (.leaf o1) (.leaf o2)
            (surrounding_box (prim_bounding_box o1) (prim_bounding_box o2)))
      | _ =>
          let mid := sorted.length / 2
          match bvh_build pick fuel (sorted.take mid),
              bvh_build pick fuel (sorted.drop mid) with
          | some l, some r =>
              some (.node l r (surrounding_box l.bbox_of r.bbox_of))
          | _, _ => none

theorem bvh_build_nil (pick : List Prim → ℕ) (fuel : ℕ) :
    bvh_build pick fuel [] = none := by
  induction fuel with
  | zero => rfl
  | succ f ih =>
    rw [bvh_build]
    simp only [List.mergeSort_nil, List.take_nil, List.drop_nil]
    rw [ih]

theorem bvh_build_total (pick : List Prim → ℕ) :
    ∀ (fuel : ℕ) (l : List Prim), l ≠ [] → l.length ≤ fuel →
      ∃ t, bvh_build pick fuel l = some t := by
  intro fuel
  induction fuel with
  | zero =>
    intro l hne hlen
    cases l with
    | nil => exact absurd rfl hne
    | cons a l => simp at hlen
  | succ f ih =>
    intro l hne hlen
    rw [bvh_build]
    have hslen : (l.mergeSort
        (fun a b => decide (axis_key (pick l) a ≤ axis_key (pick l) b))).length
        = l.length := List.length_mergeSort l
    set s := l.mergeSort
      (fun a b => decide (axis_key (pick l) a ≤ axis_key (pick l) b)) with hs
    match s, hslen with
    | [], hslen =>
      exfalso
      cases l with
      | nil => exact hne rfl
      | cons a l => simp at hslen
    | [o], hslen => exact ⟨.leaf o, rfl⟩
    | [o1, o2], hslen => exact ⟨_, rfl⟩
    | o1 :: o2 :: o3 :: rest, hslen =>
      have hrest : rest.length + 3 = l.length := by
        simp only [List.length_cons] at hslen
        omega
      have htake : (List.take ((o1 :: o2 :: o3 :: rest).length / 2)
          (o1 :: o2 :: o3 :: rest)).length
          = (o1 :: o2 :: o3 :: rest).length / 2 := by
        simp only [List.length_take, List.length_cons]
        omega
      have hdrop : (List.drop ((o1 :: o2 :: o3 :: rest).length / 2)
          (o1 :: o2 :: o3 :: rest)).length
          = (o1 :: o2 :: o3 :: rest).length
            - (o1 :: o2 :: o3 :: rest).length / 2 := by
        simp only [List.length_drop]
      obtain ⟨tl, htl⟩ := ih (List.take ((o1 :: o2 :: o3 :: rest).length / 2)
          (o1 :: o2 :: o3 :: rest))
        (by
          intro habs
          rw [habs] at htake
          simp only [List.length_nil, List.length_cons] at htake
          omega)
        (by
          rw [htake]
          simp only [List.length_cons]
          omega)
      obtain ⟨tr, htr⟩ := ih (List.drop ((o1 :: o2 :: o3 :: rest).length / 2)
          (o1 :: o2 :: o3 :: rest))
        (by
          intro habs
          rw [habs] at hdrop
          simp only [List.length_nil, List.length_cons] at hdrop
          omega)
        (by
          rw [hdrop]
          simp only [List.length_cons]
          omega)
      refine ⟨HTree.node tl tr (surrounding_box tl.bbox_of tr.bbox_of), ?_⟩
      dsimp only
      rw [htl, htr]

/-- C10: `BVHNode::build` terminates on every non-empty primitive list
(fuel equal to the list length suffices, since the midpoint split makes
both halves strictly shorter and non-empty), while on the empty list the
default arm recurses on an empty list again, so no amount of fuel makes
it terminate. -/
theorem bvh_build_termination :
    (∀ (pick : List Prim → ℕ) (fuel : ℕ) (l : List Prim),
      l ≠ [] → l.length ≤ fuel → ∃ t, bvh_build pick fuel l = some t) ∧
    (∀ (pick : List Prim → ℕ) (fuel : ℕ), bvh_build pick fuel [] = none) :=
  ⟨fun pick fuel l => bvh_build_total pick fuel l,
   fun pick fuel => bvh_build_nil pick fuel⟩

/-- Witness for C10: a singleton list builds with fuel 1; the empty list
yields `none` at fuel 5. -/
theorem bvh_build_termination_witness :
    (∃ t, bvh_build (fun _ => 0) 1 [Prim.tri (Vec3.mk3 0 0 0)
      (Vec3.mk3 1 0 0) (Vec3.mk3 0 1 0)] = some t) ∧
    bvh_build (fun _ => 0) 5 [] = none :=
  ⟨bvh_build_termination.1 (fun _ => 0) 1
    [Prim.tri (Vec3.mk3 0 0 0) (Vec3.mk3 1 0 0) (Vec3.mk3 0 1 0)]
    (by simp) (by simp),
   bvh_build_termination.2 (fun _ => 0) 5⟩

/-! ### Characterizations of the primitive hit functions -/

/-- The record `triangle_hit` writes on success. -/
noncomputable def triRec (v0 v1 v2 : Vec3) (ray : Ray) : HitRec :=
  let fn := face_normal ray (unit_vector (cross (v1 - v0) (v2 - v0)))
  { t := triT v0 v1 v2 ray, p := ray.at (triT v0 v1 v2 ray),
    normal := fn.2, front_face := fn.1 }

theorem triangle_hit_some_iff (v0 v1 v2 : Vec3) (ray : Ray) (lo : ℝ)
    (hi : WithTop ℝ) (rec : HitRec) :
    triangle_hit v0 v1 v2 ray lo hi = some rec ↔
      (1e-6 ≤ |triA v0 v1 v2 ray| ∧
       (0 ≤ triU v0 v1 v2 ray ∧ triU v0 v1 v2 ray ≤ 1) ∧
       (0 ≤ triV v0 v1 v2 ray ∧
         triU v0 v1 v2 ray + triV v0 v1 v2 ray ≤ 1) ∧
       (lo ≤ triT v0 v1 v2 ray ∧
         (triT v0 v1 v2 ray : WithTop ℝ) ≤ hi) ∧
       rec = triRec v0 v1 v2 ray) := by
  rw [triangle_hit]
  simp only [triA, triU, triV, triT, triRec]
  by_cases h1 : |dot (v1 - v0) (cross ray.dir (v2 - v0))| < 1e-6
  · rw [if_pos h1]
    exact iff_of_false (by simp)
      (fun h => absurd h.1 (not_le.mpr h1))
  · rw [if_neg h1]
    by_cases h2 : ¬ (0 ≤ 1 / dot (v1 - v0) (cross ray.dir (v2 - v0)) *
        dot (ray.orig - v0) (cross ray.dir (v2 - v0)) ∧
        1 / dot (v1 - v0) (cross ray.dir (v2 - v0)) *
        dot (ray.orig - v0) (cross ray.dir (v2 - v0)) ≤ 1)
    · rw [if_pos h2]
      exact iff_of_false (by simp) (fun h => absurd h.2.1 h2)
    · rw [if_neg h2]
      by_cases h3 : 1 / dot (v1 - v0) (cross ray.dir (v2 - v0)) *
          dot ray.dir (cross (ray.orig - v0) (v1 - v0)) < 0 ∨
          1 / dot (v1 - v0) (cross ray.dir (v2 - v0)) *
          dot (ray.orig - v0) (cross ray.dir (v2 - v0)) +
          1 / dot (v1 - v0) (cross ray.dir (v2 - v0)) *
          dot ray.dir (cross (ray.orig - v0) (v1 - v0)) > 1
      · rw [if_pos h3]
        refine iff_of_false (by simp) (fun h => ?_)
        rcases h3 with h3 | h3
        · exact absurd h.2.2.1.1 (not_le.mpr h3)
        · exact absurd h.2.2.1.2 (not_le.mpr h3)
      · rw [if_neg h3]
        by_cases h4 : 1 / dot (v1 - v0) (cross ray.dir (v2 - v0)) *
            dot (v2 - v0) (cross (ray.orig - v0) (v1 - v0)) < lo ∨
            hi < ((1 / dot (v1 - v0) (cross ray.dir (v2 - v0)) *
              dot (v2 - v0) (cross (ray.orig - v0) (v1 - v0)) : ℝ) : WithTop ℝ)
        · rw [if_pos h4]
          refine iff_of_false (by simp) (fun h => ?_)
          rcases h4 with h4 | h4
          · exact absurd h.2.2.2.1.1 (not_le.mpr h4)
          · exact absurd h.2.2.2.1.2 (not_le.mpr h4)
        · rw [if_neg h4]
          push_neg at h2 h3 h4
          constructor
          · intro h
            exact ⟨not_lt.mp h1, h2, ⟨h3.1, h3.2⟩, ⟨h4.1, h4.2⟩,
              (Option.some_inj.mp h).symm⟩
          · intro h
            rw [h.2.2.2.2]

/-- The quadratic coefficient `a` of `Sphere::hit`. -/
def sphA (ray : Ray) : ℝ := ray.dir.length_squared

/-- `half_b` of `Sphere::hit`. -/
def sphHalfB (center : Vec3) (ray : Ray) : ℝ := dot (ray.orig - center) ray.dir

/-- `discriminant` of `Sphere::hit`. -/
def sphDisc (center : Vec3) (radius : ℝ) (ray : Ray) : ℝ :=
  sphHalfB center ray * sphHalfB center ray -
    sphA ray * ((ray.orig - center).length_squared - radius * radius)

/-- The smaller quadratic root tried first by `Sphere::hit`. -/
noncomputable def sphRoot1 (center : Vec3) (radius : ℝ) (ray : Ray) : ℝ :=
  (-sphHalfB center ray - Real.sqrt (sphDisc center radius ray)) / sphA ray

/-- The larger quadratic root tried second by `Sphere::hit`. -/
noncomputable def sphRoot2 (center : Vec3) (radius : ℝ) (ray : Ray) : ℝ :=
  (-sphHalfB center ray + Real.sqrt (sphDisc center radius ray)) / sphA ray

/-- The record `Sphere::hit` writes for an accepted root. -/
noncomputable def sphRec (center : Vec3) (radius : ℝ) (ray : Ray)
    (root : ℝ) : HitRec :=
  let p := ray.at root
  let fn := face_normal ray ((p - center).divS radius)
  { t := root, p := p, normal := fn.2, front_face := fn.1 }

theorem sphere_hit_some_iff (center : Vec3) (radius : ℝ) (ray : Ray)
    (lo : ℝ) (hi : WithTop ℝ) (rec : HitRec) :
    sphere_hit center radius ray lo hi = some rec ↔
      0 ≤ sphDisc center radius ray ∧
      ((lo < sphRoot1 center radius ray ∧
          (sphRoot1 center radius ray : WithTop ℝ) < hi ∧
          rec = sphRec center radius ray (sphRoot1 center radius ray)) ∨
       ((sphRoot1 center radius ray ≤ lo ∨
           hi ≤ (sphRoot1 center radius ray : WithTop ℝ)) ∧
         lo < sphRoot2 center radius ray ∧
         (sphRoot2 center radius ray : WithTop ℝ) < hi ∧
         rec = sphRec center radius ray (sphRoot2 center radius ray))) := by
  rw [sphere_hit]
  simp only [sphDisc, sphA, sphHalfB, sphRoot1, sphRoot2, sphRec]
  by_cases h0 : dot (ray.orig - center) ray.dir * dot (ray.orig - center)
      ray.dir - ray.dir.length_squared *
      ((ray.orig - center).length_squared - radius * radius) < 0
  · rw [if_pos h0]
    exact iff_of_false (by simp) (fun h => absurd h.1 (not_le.mpr h0))
  · rw [if_neg h0]
    by_cases h1 : (-dot (ray.orig - center) ray.dir -
        Real.sqrt (dot (ray.orig - center) ray.dir *
          dot (ray.orig - center) ray.dir - ray.dir.length_squared *
          ((ray.orig - center).length_squared - radius * radius))) /
        ray.dir.length_squared ≤ lo ∨
        hi ≤ (((-dot (ray.orig - center) ray.dir -
          Real.sqrt (dot (ray.orig - center) ray.dir *
            dot (ray.orig - center) ray.dir - ray.dir.length_squared *
            ((ray.orig - center).length_squared - radius * radius))) /
          ray.dir.length_squared : ℝ) : WithTop ℝ)
    · rw [if_pos h1]
      by_cases h2 : (-dot (ray.orig - center) ray.dir +
          Real.sqrt (dot (ray.orig - center) ray.dir *
            dot (ray.orig - center) ray.dir - ray.dir.length_squared *
            ((ray.orig - center).length_squared - radius * radius))) /
          ray.dir.length_squared ≤ lo ∨
          hi ≤ (((-dot (ray.orig - center) ray.dir +
            Real.sqrt (dot (ray.orig - center) ray.dir *
              dot (ray.orig - center) ray.dir - ray.dir.length_squared *
              ((ray.orig - center).length_squared - radius * radius))) /
            ray.dir.length_squared : ℝ) : WithTop ℝ)
      · rw [if_pos h2]
        refine iff_of_false (by simp) (fun h => ?_)
        rcases h.2 with ⟨ha, ha2, _⟩ | ⟨_, hb, hc, _⟩
        · rcases h1 with h1 | h1
          · exact absurd ha (not_lt.mpr h1)
          · exact absurd ha2 (not_lt.mpr h1)
        · rcases h2 with h2 | h2
          · exact absurd hb (not_lt.mpr h2)
          · exact absurd hc (not_lt.mpr h2)
      · rw [if_neg h2]
        push_neg at h2
        constructor
        · intro h
          exact ⟨not_lt.mp h0, Or.inr ⟨h1, h2.1, h2.2,
            (Option.some_inj.mp h).symm⟩⟩
        · intro h
          rcases h.2 with ⟨ha, ha2, _⟩ | ⟨_, _, _, hd⟩
          · rcases h1 with h1 | h1
            · exact absurd ha (not_lt.mpr h1)
            · exact absurd ha2 (not_lt.mpr h1)
          · rw [hd]
    · rw [if_neg h1]
      push_neg at h1
      constructor
      · intro h
        exact ⟨not_lt.mp h0, Or.inl ⟨h1.1, h1.2, (Option.some_inj.mp h).symm⟩⟩
      · intro h
        rcases h.2 with ⟨_, _, hc⟩ | ⟨hd, _, _, _⟩
        · rw [hc]
        · rcases hd with hd | hd
          · exact absurd h1.1 (not_lt.mpr hd)
          · exact absurd h1.2 (not_lt.mpr hd)

/-! ### Interval lemmas for primitive hits -/

theorem sphA_nonneg (ray : Ray) : 0 ≤ sphA ray := by
  simp only [sphA, Vec3.length_squared]
  nlinarith [mul_self_nonneg ray.dir.x, mul_self_nonneg ray.dir.y,
    mul_self_nonneg ray.dir.z]

theorem sphRoot1_le_sphRoot2 (center : Vec3) (radius : ℝ) (ray : Ray) :
    sphRoot1 center radius ray ≤ sphRoot2 center radius ray := by
  rcases eq_or_lt_of_le (sphA_nonneg ray) with h | h
  · rw [sphRoot1, sphRoot2, ← h, div_zero, div_zero]
  · rw [sphRoot1, sphRoot2, div_le_div_iff_of_pos_right h]
    have := Real.sqrt_nonneg (sphDisc center radius ray)
    linarith

theorem prim_hit_range (p : Prim) (ray : Ray) (lo : ℝ) (hi : WithTop ℝ)
    (rec : HitRec) (h : prim_hit p ray lo hi = some rec) :
    lo ≤ rec.t ∧ (rec.t : WithTop ℝ) ≤ hi := by
  cases p with
  | tri a b c =>
    rw [prim_hit, triangle_hit_some_iff] at h
    obtain ⟨-, -, -, ⟨h1, h2⟩, hrec⟩ := h
    rw [hrec]
    exact ⟨h1, h2⟩
  | sphere c r =>
    rw [prim_hit, sphere_hit_some_iff] at h
    rcases h.2 with ⟨h1, h2, hrec⟩ | ⟨-, h1, h2, hrec⟩ <;>
      · rw [hrec]
        exact ⟨h1.le, h2.le⟩

theorem prim_hit_widen (p : Prim) (ray : Ray) (lo : ℝ) (hi hi' : WithTop ℝ)
    (rec : HitRec) (h : prim_hit p ray lo hi = some rec) (hh : hi ≤ hi') :
    prim_hit p ray lo hi' = some rec := by
  cases p with
  | tri a b c =>
    rw [prim_hit, triangle_hit_some_iff] at h ⊢
    obtain ⟨c1, c2, c3, ⟨h1, h2⟩, hrec⟩ := h
    exact ⟨c1, c2, c3, ⟨h1, le_trans h2 hh⟩, hrec⟩
  | sphere c r =>
    rw [prim_hit, sphere_hit_some_iff] at h ⊢
    obtain ⟨hd, hbr⟩ := h
    refine ⟨hd, ?_⟩
    rcases hbr with ⟨h1, h2, hrec⟩ | ⟨hrej, h1, h2, hrec⟩
    · exact Or.inl ⟨h1, lt_of_lt_of_le h2 hh, hrec⟩
    · rcases hrej with hrej | hrej
      · exact Or.inr ⟨Or.inl hrej, h1, lt_of_lt_of_le h2 hh, hrec⟩
      · exact absurd h2 (not_lt.mpr (le_trans hrej
          (WithTop.coe_le_coe.mpr (sphRoot1_le_sphRoot2 c r ray))))

theorem prim_hit_narrow (p : Prim) (ray : Ray) (lo : ℝ) (hi hi' : WithTop ℝ)
    (rec : HitRec) (h : prim_hit p ray lo hi = some rec) (_hh : hi' ≤ hi) :
    prim_hit p ray lo hi' = some rec ∨
      (prim_hit p ray lo hi' = none ∧ hi' ≤ (rec.t : WithTop ℝ)) := by
  cases p with
  | tri a b c =>
    rw [prim_hit, triangle_hit_some_iff] at h
    obtain ⟨c1, c2, c3, ⟨h1, h2⟩, hrec⟩ := h
    by_cases hT : (triT a b c ray : WithTop ℝ) ≤ hi'
    · exact Or.inl (by
        rw [prim_hit, triangle_hit_some_iff]
        exact ⟨c1, c2, c3, ⟨h1, hT⟩, hrec⟩)
    · refine Or.inr ⟨?_, ?_⟩
      · cases heq : prim_hit (.tri a b c) ray lo hi' with
        | none => rfl
        | some rec'' =>
          rw [prim_hit, triangle_hit_some_iff] at heq
          exact absurd heq.2.2.2.1.2 hT
      · rw [hrec]
        exact (le_of_lt (not_le.mp hT))
  | sphere c r =>
    rw [prim_hit, sphere_hit_some_iff] at h
    obtain ⟨hd, hbr⟩ := h
    rcases hbr with ⟨h1, h2, hrec⟩ | ⟨hrej, h1, h2, hrec⟩
    · -- accepted the smaller root
      by_cases hT : (sphRoot1 c r ray : WithTop ℝ) < hi'
      · exact Or.inl (by
          rw [prim_hit, sphere_hit_some_iff]
          exact ⟨hd, Or.inl ⟨h1, hT, hrec⟩⟩)
      · refine Or.inr ⟨?_, by rw [hrec]; exact not_lt.mp hT⟩
        cases heq : prim_hit (.sphere c r) ray lo hi' with
        | none => rfl
        | some rec'' =>
          rw [prim_hit, sphere_hit_some_iff] at heq
          rcases heq.2 with ⟨-, hb2, -⟩ | ⟨hrej', hb1, hb2, -⟩
          · exact absurd hb2 hT
          · exact absurd hb2 (not_lt.mpr (le_trans (not_lt.mp hT)
              (WithTop.coe_le_coe.mpr (sphRoot1_le_sphRoot2 c r ray))))
    · -- accepted the larger root; the smaller root was below `lo`
      have hrej1 : sphRoot1 c r ray ≤ lo := by
        rcases hrej with hrej | hrej
        · exact hrej
        · exact absurd h2 (not_lt.mpr (le_trans hrej
            (WithTop.coe_le_coe.mpr (sphRoot1_le_sphRoot2 c r ray))))
      by_cases hT : (sphRoot2 c r ray : WithTop ℝ) < hi'
      · exact Or.inl (by
          rw [prim_hit, sphere_hit_some_iff]
          exact ⟨hd, Or.inr ⟨Or.inl hrej1, h1, hT, hrec⟩⟩)
      · refine Or.inr ⟨?_, by rw [hrec]; exact not_lt.mp hT⟩
        cases heq : prim_hit (.sphere c r) ray lo hi' with
        | none => rfl
        | some rec'' =>
          rw [prim_hit, sphere_hit_some_iff] at heq
          rcases heq.2 with ⟨hb1, -, -⟩ | ⟨-, -, hb2, -⟩
          · exact absurd hb1 (not_lt.mpr hrej1)
          · exact absurd hb2 hT

/-! ### The flat-list query returns the closest primitive hit -/

theorem list_hit_none_iff (l : List Prim) (ray : Ray) (lo : ℝ)
    (hi : WithTop ℝ) :
    list_hit l ray lo hi = none ↔
      ∀ p ∈ l, prim_hit p ray lo hi = none := by
  induction l with
  | nil => simp [list_hit]
  | cons q rest ih =>
    rw [list_hit]
    cases hq : prim_hit q ray lo hi with
    | some recq =>
      refine iff_of_false ?_ (fun hall => ?_)
      · cases hr : list_hit rest ray lo (recq.t : WithTop ℝ) with
        | some rec2 => simp [hr]
        | none => simp [hr]
      · rw [hall q (List.mem_cons_self q rest)] at hq
        cases hq
    | none =>
      constructor
      · intro h p hp
        rcases List.mem_cons.mp hp with rfl | hp2
        · exact hq
        · exact (ih.mp h) p hp2
      · intro hall
        exact ih.mpr (fun p hp => hall p (List.mem_cons_of_mem q hp))

theorem list_hit_range (l : List Prim) (ray : Ray) (lo : ℝ) (hi : WithTop ℝ)
    (rec : HitRec) (h : list_hit l ray lo hi = some rec) :
    lo ≤ rec.t ∧ (rec.t : WithTop ℝ) ≤ hi := by
  induction l generalizing hi rec with
  | nil => simp [list_hit] at h
  | cons q rest ih =>
    rw [list_hit] at h
    cases hq : prim_hit q ray lo hi with
    | some recq =>
      rw [hq] at h
      dsimp only at h
      cases hr : list_hit rest ray lo (recq.t : WithTop ℝ) with
      | some rec2 =>
        rw [hr] at h
        have hrec : rec2 = rec := Option.some_inj.mp h
        obtain ⟨hr1, hr2⟩ := ih (recq.t : WithTop ℝ) rec2 hr
        obtain ⟨-, hq2⟩ := prim_hit_range q ray lo hi recq hq
        rw [← hrec]
        exact ⟨hr1, le_trans hr2 hq2⟩
      | none =>
        rw [hr] at h
        have hrec : recq = rec := Option.some_inj.mp h
        rw [← hrec]
        exact prim_hit_range q ray lo hi recq hq
    | none =>
      rw [hq] at h
      dsimp only at h
      exact ih hi rec h

theorem list_hit_min (l : List Prim) (ray : Ray) (lo : ℝ) (hi : WithTop ℝ)
    (rec : HitRec) (h : list_hit l ray lo hi = some rec) :
    ∀ p ∈ l, ∀ rec', prim_hit p ray lo hi = some rec' → rec.t ≤ rec'.t := by
  induction l generalizing hi rec with
  | nil => simp [list_hit] at h
  | cons q rest ih =>
    intro p hp rec' hp'
    rw [list_hit] at h
    cases hq : prim_hit q ray lo hi with
    | none =>
      rw [hq] at h
      dsimp only at h
      rcases List.mem_cons.mp hp with rfl | hp2
      · rw [hq] at hp'; cases hp'
      · exact ih hi rec h p hp2 rec' hp'
    | some recq =>
      rw [hq] at h
      dsimp only at h
      have hqt : (recq.t : WithTop ℝ) ≤ hi :=
        (prim_hit_range q ray lo hi recq hq).2
      cases hr : list_hit rest ray lo (recq.t : WithTop ℝ) with
      | some rec2 =>
        rw [hr] at h
        have hrec : rec2 = rec := Option.some_inj.mp h
        rcases List.mem_cons.mp hp with rfl | hp2
        · have hr' : rec' = recq := by
            rw [hq] at hp'
            exact (Option.some_inj.mp hp').symm
          have h1 : (rec2.t : WithTop ℝ) ≤ (recq.t : WithTop ℝ) :=
            (list_hit_range rest ray lo _ rec2 hr).2
          rw [← hrec, hr']
          exact WithTop.coe_le_coe.mp h1
        · rcases prim_hit_narrow p ray lo hi (recq.t : WithTop ℝ) rec' hp' hqt
            with hsome | ⟨hnone, hle2⟩
          · rw [← hrec]
            exact ih _ rec2 hr p hp2 rec' hsome
          · have h1 : (rec2.t : WithTop ℝ) ≤ (recq.t : WithTop ℝ) :=
              (list_hit_range rest ray lo _ rec2 hr).2
            rw [← hrec]
            exact WithTop.coe_le_coe.mp (le_trans h1 hle2)
      | none =>
        rw [hr] at h
        have hrec : recq = rec := Option.some_inj.mp h
        rcases List.mem_cons.mp hp with rfl | hp2
        · rw [hq] at hp'
          rw [← hrec, ← Option.some_inj.mp hp']
        · rcases prim_hit_narrow p ray lo hi (recq.t : WithTop ℝ) rec' hp' hqt
            with hsome | ⟨hnone, hle2⟩
          · rw [(list_hit_none_iff rest ray lo _).mp hr p hp2] at hsome
            cases hsome
          · rw [← hrec]
            exact WithTop.coe_le_coe.mp hle2

theorem list_hit_exists (l : List Prim) (ray : Ray) (lo : ℝ) (hi : WithTop ℝ)
    (p : Prim) (rec' : HitRec) (hp : p ∈ l)
    (hh : prim_hit p ray lo hi = some rec') :
    ∃ rec, list_hit l ray lo hi = some rec := by
  cases heq : list_hit l ray lo hi with
  | some rec => exact ⟨rec, rfl⟩
  | none =>
    rw [(list_hit_none_iff l ray lo hi).mp heq p hp] at hh
    cases hh

/-! ### Every hit the BVH reports is a genuine primitive hit -/

theorem bvh_hit_range (tr : HTree) (ray : Ray) (lo : ℝ) (hi : WithTop ℝ)
    (rec : HitRec) (h : bvh_hit tr ray lo hi = some rec) :
    lo ≤ rec.t ∧ (rec.t : WithTop ℝ) ≤ hi := by
  induction tr generalizing hi rec with
  | leaf p => exact prim_hit_range p ray lo hi rec h
  | node l r bbox ihl ihr =>
    rw [bvh_hit] at h
    by_cases hbox : ¬ aabb_hit bbox ray lo hi
    · rw [if_pos hbox] at h; cases h
    · rw [if_neg hbox] at h
      cases hl : bvh_hit l ray lo hi with
      | some recL =>
        rw [hl] at h
        dsimp only at h
        have hlr := ihl hi recL hl
        cases hr : bvh_hit r ray lo (recL.t : WithTop ℝ) with
        | some recR =>
          rw [hr] at h
          have hrr := ihr _ recR hr
          rw [← Option.some_inj.mp h]
          exact ⟨hrr.1, le_trans hrr.2 hlr.2⟩
        | none =>
          rw [hr] at h
          rw [← Option.some_inj.mp h]
          exact hlr
      | none =>
        rw [hl] at h
        dsimp only at h
        exact ihr hi rec h

theorem bvh_hit_sound (tr : HTree) (ray : Ray) (lo : ℝ) (hi : WithTop ℝ)
    (rec : HitRec) (h : bvh_hit tr ray lo hi = some rec) :
    ∃ p ∈ tr.leaves, prim_hit p ray lo hi = some rec := by
  induction tr generalizing hi rec with
  | leaf p => exact ⟨p, by simp [HTree.leaves], h⟩
  | node l r bbox ihl ihr =>
    rw [bvh_hit] at h
    by_cases hbox : ¬ aabb_hit bbox ray lo hi
    · rw [if_pos hbox] at h; cases h
    · rw [if_neg hbox] at h
      cases hl : bvh_hit l ray lo hi with
      | some recL =>
        rw [hl] at h
        dsimp only at h
        have hlehi : (recL.t : WithTop ℝ) ≤ hi :=
          (bvh_hit_range l ray lo hi recL hl).2
        cases hr : bvh_hit r ray lo (recL.t : WithTop ℝ) with
        | some recR =>
          rw [hr] at h
          obtain ⟨p, hpmem, hp⟩ := ihr _ recR hr
          refine ⟨p, by simp [HTree.leaves, hpmem], ?_⟩
          rw [← Option.some_inj.mp h]
          exact prim_hit_widen p ray lo _ hi recR hp hlehi
        | none =>
          rw [hr] at h
          obtain ⟨p, hpmem, hp⟩ := ihl hi recL hl
          refine ⟨p, by simp [HTree.leaves, hpmem], ?_⟩
          rw [← Option.some_inj.mp h]
          exact hp
      | none =>
        rw [hl] at h
        dsimp only at h
        obtain ⟨p, hpmem, hp⟩ := ihr hi rec h
        exact ⟨p, by simp [HTree.leaves, hpmem], hp⟩

/-- The primitives stored in a built BVH are a permutation of the input
list (the build only sorts and splits). -/
theorem bvh_build_leaves_perm (pick : List Prim → ℕ) :
    ∀ (fuel : ℕ) (l : List Prim) (tr : HTree),
      bvh_build pick fuel l = some tr → tr.leaves.Perm l := by
  intro fuel
  induction fuel with
  | zero => intro l tr h; cases h
  | succ f ih =>
    intro l tr h
    rw [bvh_build] at h
    have hperm : (l.mergeSort
        (fun a b => decide (axis_key (pick l) a ≤ axis_key (pick l) b))).Perm l :=
      List.mergeSort_perm l _
    rcases hsort : l.mergeSort
        (fun a b => decide (axis_key (pick l) a ≤ axis_key (pick l) b)) with
      _ | ⟨o1, _ | ⟨o2, _ | ⟨o3, rest⟩⟩⟩
    · rw [hsort] at h
      simp only [List.take_nil, List.drop_nil] at h
      rw [bvh_build_nil] at h
      cases h
    · rw [hsort] at h
      rw [← Option.some_inj.mp h]
      rw [hsort] at hperm
      exact hperm
    · rw [hsort] at h
      rw [← Option.some_inj.mp h]
      rw [hsort] at hperm
      exact hperm
    · rw [hsort] at h
      dsimp only at h
      rw [hsort] at hperm
      cases htl : bvh_build pick f
          (List.take ((o1 :: o2 :: o3 :: rest).length / 2)
            (o1 :: o2 :: o3 :: rest)) with
      | none => rw [htl] at h; cases h
      | some tl =>
        rw [htl] at h
        cases htr : bvh_build pick f
            (List.drop ((o1 :: o2 :: o3 :: rest).length / 2)
              (o1 :: o2 :: o3 :: rest)) with
        | none => rw [htr] at h; cases h
        | some tr' =>
          rw [htr] at h
          rw [← Option.some_inj.mp h]
          have hl := ih _ tl htl
          have hr := ih _ tr' htr
          have happ := hl.append hr
          rw [List.take_append_drop] at happ
          exact (happ.trans hperm)

/-- C2 (amended): whenever a BVH built from a primitive list reports a hit,
the flat list over the same primitives also reports a hit, the BVH's `t`
is a genuine primitive intersection parameter inside `[t_min, t_max]`, and
the flat list's `t` is at most the BVH's `t` (the flat list returns the
closest hit; the BVH may cull closer ones that lie exactly on a degenerate
node box). -/
theorem bvh_hit_agrees_with_list_hit (prims : List Prim)
    (pick : List Prim → ℕ) (fuel : ℕ) (tr : HTree) (ray : Ray) (lo : ℝ)
    (hi : WithTop ℝ) (rec : HitRec)
    (hbuild : bvh_build pick fuel prims = some tr)
    (hhit : bvh_hit tr ray lo hi = some rec) :
    (∃ p ∈ prims, prim_hit p ray lo hi = some rec) ∧
    lo ≤ rec.t ∧ (rec.t : WithTop ℝ) ≤ hi ∧
    ∃ rec', list_hit prims ray lo hi = some rec' ∧ rec'.t ≤ rec.t := by
  obtain ⟨p, hpmem, hp⟩ := bvh_hit_sound tr ray lo hi rec hhit
  have hmem : p ∈ prims :=
    (bvh_build_leaves_perm pick fuel prims tr hbuild).mem_iff.mp hpmem
  obtain ⟨rec', hlist⟩ := list_hit_exists prims ray lo hi p rec hmem hp
  obtain ⟨h1, h2⟩ := bvh_hit_range tr ray lo hi rec hhit
  exact ⟨⟨p, hmem, hp⟩, h1, h2,
    rec', hlist, list_hit_min prims ray lo hi rec' hlist p hmem rec hp⟩

/-! ### A concrete scene where the BVH and the flat list disagree

Two copies of the triangle `(0,0,0),(0,1,0),(0,0,1)` lie in the plane
`x = 0`, so the node box is flat in `x`.  A ray crossing that plane
transversally narrows the slab interval to the single point `t = 1`, and
the `t_max <= t_min` check rejects it, although `triangle_hit` reports a
hit at `t = 1`. -/

/-- The flat triangle of the disagreement scene. -/
noncomputable def cexTri : Prim :=
  .tri (Vec3.mk3 0 0 0) (Vec3.mk3 0 1 0) (Vec3.mk3 0 0 1)

/-- The ray of the disagreement scene. -/
noncomputable def cexRay : Ray :=
  { orig := Vec3.mk3 (-1) 0.2 0.2, dir := Vec3.mk3 1 0 0 }

/-- The BVH that `build` produces from `[cexTri, cexTri]`. -/
noncomputable def cexTree : HTree :=
  .node (.leaf cexTri) (.leaf cexTri)
    (surrounding_box (prim_bounding_box cexTri) (prim_bounding_box cexTri))

theorem cex_triA :
    triA (Vec3.mk3 0 0 0) (Vec3.mk3 0 1 0) (Vec3.mk3 0 0 1) cexRay = -1 := by
  simp only [triA, dot, cross, Vec3.sub_def, Vec3.mk3, cexRay]
  norm_num

theorem cex_triU :
    triU (Vec3.mk3 0 0 0) (Vec3.mk3 0 1 0) (Vec3.mk3 0 0 1) cexRay = 0.2 := by
  rw [triU, cex_triA]
  simp only [dot, cross, Vec3.sub_def, Vec3.mk3, cexRay]
  norm_num

theorem cex_triV :
    triV (Vec3.mk3 0 0 0) (Vec3.mk3 0 1 0) (Vec3.mk3 0 0 1) cexRay = 0.2 := by
  rw [triV, cex_triA]
  simp only [dot, cross, Vec3.sub_def, Vec3.mk3, cexRay]
  norm_num

theorem cex_triT :
    triT (Vec3.mk3 0 0 0) (Vec3.mk3 0 1 0) (Vec3.mk3 0 0 1) cexRay = 1 := by
  rw [triT, cex_triA]
  simp only [dot, cross, Vec3.sub_def, Vec3.mk3, cexRay]
  norm_num

theorem cex_prim_hit (hi : WithTop ℝ) (hhi : ((1 : ℝ) : WithTop ℝ) ≤ hi) :
    prim_hit cexTri cexRay 0.001 hi
      = some (triRec (Vec3.mk3 0 0 0) (Vec3.mk3 0 1 0) (Vec3.mk3 0 0 1)
          cexRay) := by
  rw [cexTri, prim_hit, triangle_hit_some_iff]
  refine ⟨by rw [cex_triA]; norm_num,
    by rw [cex_triU]; norm_num,
    by rw [cex_triU, cex_triV]; norm_num,
    ⟨by rw [cex_triT]; norm_num, by rw [cex_triT]; exact hhi⟩, rfl⟩

theorem cex_rec_t :
    (triRec (Vec3.mk3 0 0 0) (Vec3.mk3 0 1 0) (Vec3.mk3 0 0 1) cexRay).t
      = 1 := cex_triT

theorem cex_list_hit :
    list_hit [cexTri, cexTri] cexRay 0.001 ⊤
      = some (triRec (Vec3.mk3 0 0 0) (Vec3.mk3 0 1 0) (Vec3.mk3 0 0 1)
          cexRay) := by
  rw [list_hit, cex_prim_hit ⊤ le_top]
  dsimp only
  rw [list_hit, cex_prim_hit _ (by rw [cex_rec_t])]
  dsimp only
  rw [list_hit]

theorem cex_sorted (le : Prim → Prim → Bool) :
    [cexTri, cexTri].mergeSort le = [cexTri, cexTri] := by
  have hperm := List.mergeSort_perm [cexTri, cexTri] le
  have hlen : ([cexTri, cexTri].mergeSort le).length = 2 := by
    rw [List.length_mergeSort]
    rfl
  obtain ⟨a, b, hab⟩ := List.length_eq_two.mp hlen
  have ha : a = cexTri := by
    have : a ∈ [cexTri, cexTri] := hperm.mem_iff.mp (by rw [hab]; simp)
    simpa using this
  have hb : b = cexTri := by
    have : b ∈ [cexTri, cexTri] := hperm.mem_iff.mp (by rw [hab]; simp)
    simpa using this
  rw [hab, ha, hb]

theorem cex_build :
    bvh_build (fun _ => 0) 2 [cexTri, cexTri] = some cexTree := by
  rw [bvh_build]
  dsimp only
  rw [cex_sorted]
  rfl

theorem cex_box :
    surrounding_box (prim_bounding_box cexTri) (prim_bounding_box cexTri)
      = AABB.mk (Vec3.mk3 0 0 0) (Vec3.mk3 0 1 1) := by
  rw [cexTri]
  ext <;>
    simp only [surrounding_box, prim_bounding_box, triangle_aabb,
      Vec3.mk3] <;>
    norm_num

theorem cex_aabb :
    aabb_hit (AABB.mk (Vec3.mk3 0 0 0) (Vec3.mk3 0 1 1)) cexRay 0.001 ⊤
      = false := by
  rw [aabb_hit, aabb_hit_aux]
  have hstep : slab_step (AABB.mk (Vec3.mk3 0 0 0) (Vec3.mk3 0 1 1)) cexRay
      (0 : Fin 3) (EF.fin 0.001, toEF ⊤)
      = (EF.fin (max 0.001 ((0 - (-1)) * (1 / 1))),
         EF.fin ((0 - (-1)) * (1 / 1))) := by
    rw [slab_step]
    have hd : cexRay.dir.comp 0 = 1 := rfl
    rw [hd, EF.recipOf, if_neg one_ne_zero]
    have hlt : EF.ltE (EF.fin (1 / 1)) (EF.fin 0) = false := by
      rw [EF.ltE]
      exact decide_eq_false (by norm_num)
    rw [hlt]
    rfl
  rw [hstep]
  have hle : EF.leE (EF.fin ((0 - (-1)) * (1 / 1)))
      (EF.fin (max 0.001 ((0 - (-1)) * (1 / 1)))) = true := by
    rw [EF.leE]
    exact decide_eq_true (le_max_right _ _)
  rw [hle]
  rfl

/-- Counterexample for C2: the BVH built from two copies of a flat triangle
reports no hit for a ray the flat list intersects at `t = 1` (the node box
is flat in `x`, so the slab interval degenerates to the single point
`t = 1` and the `t_max <= t_min` check culls it). -/
theorem bvh_vs_list_disagree :
    bvh_build (fun _ => 0) 2 [cexTri, cexTri] = some cexTree ∧
    bvh_hit cexTree cexRay 0.001 ⊤ = none ∧
    list_hit [cexTri, cexTri] cexRay 0.001 ⊤
      = some (triRec (Vec3.mk3 0 0 0) (Vec3.mk3 0 1 0) (Vec3.mk3 0 0 1)
          cexRay) ∧
    (triRec (Vec3.mk3 0 0 0) (Vec3.mk3 0 1 0) (Vec3.mk3 0 0 1) cexRay).t
      = 1 := by
  refine ⟨cex_build, ?_, cex_list_hit, cex_rec_t⟩
  rw [cexTree, bvh_hit]
  rw [if_pos]
  rw [cex_box, cex_aabb]
  simp

/-- Witness for the amended C2 theorem: a single-triangle scene where the
BVH (a bare leaf) and the flat list both hit at `t = 1`. -/
theorem bvh_hit_agrees_with_list_hit_witness :
    ∃ rec rec', bvh_hit (.leaf cexTri) cexRay 0.001 ⊤ = some rec ∧
      list_hit [cexTri] cexRay 0.001 ⊤ = some rec' ∧ rec'.t ≤ rec.t := by
  have hbuild : bvh_build (fun _ => 0) 1 [cexTri] = some (.leaf cexTri) := by
    rw [bvh_build]
    dsimp only
    rw [List.mergeSort_singleton]
  have hhit : bvh_hit (.leaf cexTri) cexRay 0.001 ⊤
      = some (triRec (Vec3.mk3 0 0 0) (Vec3.mk3 0 1 0) (Vec3.mk3 0 0 1)
          cexRay) := by
    rw [bvh_hit]
    exact cex_prim_hit ⊤ le_top
  obtain ⟨-, -, -, rec', hlist, hle⟩ := bvh_hit_agrees_with_list_hit
    [cexTri] (fun _ => 0) 1 (.leaf cexTri) cexRay 0.001 ⊤ _ hbuild hhit
  exact ⟨_, rec', hhit, hlist, hle⟩

/-! ### Instances (`instance.rs`) -/

/-- `utils::Mat4`: a 4×4 `f32` matrix, row-major. -/
structure Mat4 where
  data : Fin 4 → Fin 4 → ℝ

/-- `Mat4::transform_point`: rows 0–2 applied to `(x, y, z, 1)`. -/
def Mat4.transform_point (m : Mat4) (p : Vec3) : Vec3 :=
  ⟨m.data 0 0 * p.x + m.data 0 1 * p.y + m.data 0 2 * p.z + m.data 0 3,
   m.data 1 0 * p.x + m.data 1 1 * p.y + m.data 1 2 * p.z + m.data 1 3,
   m.data 2 0 * p.x + m.data 2 1 * p.y + m.data 2 2 * p.z + m.data 2 3⟩

/-- `Mat4::transform_direction`: the linear (upper-left 3×3) part. -/
def Mat4.transform_direction (m : Mat4) (v : Vec3) : Vec3 :=
  ⟨m.data 0 0 * v.x + m.data 0 1 * v.y + m.data 0 2 * v.z,
   m.data 1 0 * v.x + m.data 1 1 * v.y + m.data 1 2 * v.z,
   m.data 2 0 * v.x + m.data 2 1 * v.y + m.data 2 2 * v.z⟩

/-- Spec-modelled comparison definition for the claim: the transpose of a
matrix's linear part applied to a vector.  Applied to the instance's stored
inverse transform this is the inverse-transpose normal matrix the
specification prescribes; it is not used by the code. -/
def Mat4.transpose_direction (m : Mat4) (v : Vec3) : Vec3 :=
  ⟨m.data 0 0 * v.x + m.data 1 0 * v.y + m.data 2 0 * v.z,
   m.data 0 1 * v.x + m.data 1 1 * v.y + m.data 2 1 * v.z,
   m.data 0 2 * v.x + m.data 1 2 * v.y + m.data 2 2 * v.z⟩

/-- `Instance { object, transform, inverse_transform }`: the child is the
abstract `Arc<dyn Hittable>` hit function. -/
structure Instance where
  object : Ray → ℝ → WithTop ℝ → Option HitRec
  transform : Mat4
  inverse_transform : Mat4

/-- `Instance::hit` (`instance.rs`): transform the ray by the inverse
transform, delegate to the child, map the hit point back through the
forward transform, and set the face normal from the forward-transformed
(`transform_direction`) child normal, renormalized. -/
noncomputable def instance_hit (inst : Instance) (r : Ray) (t_min : ℝ)
    (t_max : WithTop ℝ) : Option HitRec :=
  let transformed_ray : Ray :=
    { orig := inst.inverse_transform.transform_point r.orig,
      dir := inst.inverse_transform.transform_direction r.dir }
  match inst.object transformed_ray t_min t_max with
  | none => none
  | some temp_rec =>
      let fn := face_normal r
        (unit_vector (inst.transform.transform_direction temp_rec.normal))
      some { t := temp_rec.t,
             p := inst.transform.transform_point temp_rec.p,
             normal := fn.2,
             front_face := fn.1 }

/-- C4 (amended): `Instance::hit` transforms the incoming ray with the
inverse transform and delegates to the child; on a hit it keeps the
child's `t`, maps the hit point back with the forward transform, and
returns as normal the child's normal transformed by the **forward** linear
part (not the inverse-transpose), renormalized and oriented against the
incoming ray; when the child misses, so does the instance. -/
theorem instance_hit_behaviour :
    (∀ (inst : Instance) (r : Ray) (lo : ℝ) (hi : WithTop ℝ) (rec : HitRec),
      instance_hit inst r lo hi = some rec →
      ∃ crec, inst.object
          { orig := inst.inverse_transform.transform_point r.orig,
            dir := inst.inverse_transform.transform_direction r.dir } lo hi
          = some crec ∧
        rec.t = crec.t ∧
        rec.p = inst.transform.transform_point crec.p ∧
        rec.front_face = (face_normal r (unit_vector
          (inst.transform.transform_direction crec.normal))).1 ∧
        rec.normal = (face_normal r (unit_vector
          (inst.transform.transform_direction crec.normal))).2) ∧
    (∀ (inst : Instance) (r : Ray) (lo : ℝ) (hi : WithTop ℝ),
      inst.object
          { orig := inst.inverse_transform.transform_point r.orig,
            dir := inst.inverse_transform.transform_direction r.dir } lo hi
          = none →
      instance_hit inst r lo hi = none) := by
  constructor
  · intro inst r lo hi rec h
    rw [instance_hit] at h
    dsimp only at h
    cases hc : inst.object
        { orig := inst.inverse_transform.transform_point r.orig,
          dir := inst.inverse_transform.transform_direction r.dir } lo hi with
    | none => rw [hc] at h; cases h
    | some crec =>
      rw [hc] at h
      dsimp only at h
      refine ⟨crec, rfl, ?_⟩
      rw [← Option.some_inj.mp h]
      exact ⟨rfl, rfl, rfl, rfl⟩
  · intro inst r lo hi h
    rw [instance_hit]
    dsimp only
    rw [h]

/-- The non-uniform scale `diag(2,1,1)` of the C4 counterexample. -/
noncomputable def c4M : Mat4 :=
  ⟨![![2, 0, 0, 0], ![0, 1, 0, 0], ![0, 0, 1, 0], ![0, 0, 0, 1]]⟩

/-- Its inverse, `diag(1/2,1,1)`. -/
noncomputable def c4Minv : Mat4 :=
  ⟨![![1 / 2, 0, 0, 0], ![0, 1, 0, 0], ![0, 0, 1, 0], ![0, 0, 0, 1]]⟩

/-- An instance whose child always reports a hit with normal `(3,4,0)`
(any `dyn Hittable` may do this). -/
noncomputable def c4Inst : Instance :=
  ⟨fun _ _ _ => some ⟨1, Vec3.mk3 0 0 0, Vec3.mk3 3 4 0, true⟩, c4M, c4Minv⟩

/-- A ray for which neither candidate normal gets flipped. -/
noncomputable def c4Ray : Ray :=
  { orig := Vec3.mk3 5 5 5, dir := Vec3.mk3 (-6) (-4) 0 }

theorem c4_fwd_normal :
    c4M.transform_direction (Vec3.mk3 3 4 0) = Vec3.mk3 6 4 0 := by
  simp only [Mat4.transform_direction, c4M, Vec3.mk3, Matrix.cons_val_zero,
    Matrix.cons_val_one, Matrix.head_cons, Matrix.cons_val_two,
    Matrix.tail_cons]
  norm_num

theorem c4_spec_normal :
    Mat4.transpose_direction c4Minv (Vec3.mk3 3 4 0)
      = Vec3.mk3 (3 / 2) 4 0 := by
  simp only [Mat4.transpose_direction, c4Minv, Vec3.mk3,
    Matrix.cons_val_zero, Matrix.cons_val_one, Matrix.head_cons,
    Matrix.cons_val_two, Matrix.tail_cons]
  norm_num

theorem c4_unit_ne :
    unit_vector (Vec3.mk3 6 4 0) ≠ unit_vector (Vec3.mk3 (3 / 2) 4 0) := by
  intro h
  have hy := congrArg Vec3.y h
  simp only [unit_vector, Vec3.divS, Vec3.length, Vec3.length_squared,
    Vec3.mk3] at hy
  rw [show (6 : ℝ) * 6 + 4 * 4 + 0 * 0 = 52 by norm_num,
    show (3 / 2 : ℝ) * (3 / 2) + 4 * 4 + 0 * 0 = 73 / 4 by norm_num] at hy
  have hs52 : 0 < Real.sqrt 52 := Real.sqrt_pos.mpr (by norm_num)
  have hs73 : 0 < Real.sqrt (73 / 4) := Real.sqrt_pos.mpr (by norm_num)
  rw [div_eq_div_iff hs52.ne' hs73.ne'] at hy
  have heq : Real.sqrt 52 = Real.sqrt (73 / 4) := by linarith
  have : (52 : ℝ) = 73 / 4 :=
    (Real.sqrt_inj (by norm_num) (by norm_num)).mp heq
  norm_num at this

theorem c4_face_no_flip :
    dot c4Ray.dir (unit_vector (Vec3.mk3 6 4 0)) < 0 := by
  have hs52 : 0 < Real.sqrt 52 := Real.sqrt_pos.mpr (by norm_num)
  simp only [dot, unit_vector, Vec3.divS, Vec3.length, Vec3.length_squared,
    c4Ray, Vec3.mk3]
  rw [show (6 : ℝ) * 6 + 4 * 4 + 0 * 0 = 52 by norm_num]
  have hrw : (-6 : ℝ) * (6 / Real.sqrt 52) + -4 * (4 / Real.sqrt 52) +
      0 * (0 / Real.sqrt 52) = -(52 / Real.sqrt 52) := by ring
  rw [hrw]
  exact neg_lt_zero.mpr (div_pos (by norm_num) hs52)

/-- Counterexample for C4: under the non-uniform scale `diag(2,1,1)` the
instance returns the renormalized **forward**-transformed child normal
`unit (6,4,0)`, which differs from the renormalized inverse-transpose
image `unit (3/2,4,0)` that the claim prescribes. -/
theorem instance_normal_not_inverse_transpose :
    instance_hit c4Inst c4Ray 0.001 ⊤
      = some ⟨1, c4M.transform_point (Vec3.mk3 0 0 0),
          unit_vector (Vec3.mk3 6 4 0), true⟩ ∧
    unit_vector (Vec3.mk3 6 4 0)
      ≠ unit_vector (Mat4.transpose_direction c4Inst.inverse_transform
          (Vec3.mk3 3 4 0)) := by
  constructor
  · rw [instance_hit]
    dsimp only
    show some _ = _
    have hnorm : (c4Inst.transform).transform_direction (Vec3.mk3 3 4 0)
        = Vec3.mk3 6 4 0 := c4_fwd_normal
    rw [hnorm, face_normal, if_pos c4_face_no_flip]
    rfl
  · show unit_vector (Vec3.mk3 6 4 0) ≠
      unit_vector (Mat4.transpose_direction c4Minv (Vec3.mk3 3 4 0))
    rw [c4_spec_normal]
    exact c4_unit_ne

/-- Witness for the amended C4 theorem at the concrete instance. -/
theorem instance_hit_behaviour_witness :
    ∃ crec, c4Inst.object
        { orig := c4Inst.inverse_transform.transform_point c4Ray.orig,
          dir := c4Inst.inverse_transform.transform_direction c4Ray.dir }
        0.001 ⊤ = some crec ∧
      (⟨1, c4M.transform_point (Vec3.mk3 0 0 0),
          unit_vector (Vec3.mk3 6 4 0), true⟩ : HitRec).t = crec.t ∧
      (⟨1, c4M.transform_point (Vec3.mk3 0 0 0),
          unit_vector (Vec3.mk3 6 4 0), true⟩ : HitRec).p
        = c4Inst.transform.transform_point crec.p ∧
      (⟨1, c4M.transform_point (Vec3.mk3 0 0 0),
          unit_vector (Vec3.mk3 6 4 0), true⟩ : HitRec).front_face
        = (face_normal c4Ray (unit_vector
          (c4Inst.transform.transform_direction crec.normal))).1 ∧
      (⟨1, c4M.transform_point (Vec3.mk3 0 0 0),
          unit_vector (Vec3.mk3 6 4 0), true⟩ : HitRec).normal
        = (face_normal c4Ray (unit_vector
          (c4Inst.transform.transform_direction crec.normal))).2 := by
  apply instance_hit_behaviour.1 c4Inst c4Ray 0.001 ⊤
  rw [instance_hit]
  dsimp only
  show some _ = _
  have hnorm : (c4Inst.transform).transform_direction (Vec3.mk3 3 4 0)
      = Vec3.mk3 6 4 0 := c4_fwd_normal
  rw [hnorm, face_normal, if_pos c4_face_no_flip]
  rfl

/-! ### The emissive light's pdf (`material/emissive.rs`) -/

/-- `Emissive { color, position, radius }`. -/
structure Emissive where
  color : Color
  position : Vec3
  radius : ℝ

/-- `<Emissive as Light>::pdf`: `distance_squared / (cosine * area + 1e-4)`
where `cosine = max(dot(normalize(lp-hp), normalize(lp-hp)), 0)` — the dot
product of the normalized connecting direction **with itself** — and
`area = 4π r²`. -/
noncomputable def emissive_pdf (e : Emissive) (hit_point light_point : Vec3) :
    ℝ :=
  let direction := light_point - hit_point
  let distance_squared := direction.length_squared
  let normal := unit_vector direction
  let cosine := max (dot normal (unit_vector (light_point - hit_point))) 0
  let area := 4 * Real.pi * e.radius * e.radius
  distance_squared / (cosine * area + 1e-4)

/-- The pdf formula the claim states (spec comparison definition): the
cosine at the light is taken between the emitter's surface normal at the
light point (`(light_point - position) / radius` for the sphere emitter)
and the connecting direction from the light point toward the hit point. -/
noncomputable def emissive_pdf_claimed (e : Emissive)
    (hit_point light_point : Vec3) : ℝ :=
  let direction := light_point - hit_point
  let surface_normal := (light_point - e.position).divS e.radius
  let cosine := max (dot surface_normal (unit_vector (hit_point - light_point))) 0
  let area := 4 * Real.pi * e.radius * e.radius
  direction.length_squared / (cosine * area + 1e-4)

theorem length_squared_pos_of_ne (u v : Vec3) (h : u ≠ v) :
    0 < (u - v).length_squared := by
  rcases lt_or_eq_of_le (by
    simp only [Vec3.length_squared, Vec3.sub_def]
    nlinarith [mul_self_nonneg (u.x - v.x), mul_self_nonneg (u.y - v.y),
      mul_self_nonneg (u.z - v.z)] :
    (0:ℝ) ≤ (u - v).length_squared) with hlt | heq
  · exact hlt
  · exfalso
    apply h
    have hx : (u.x - v.x) * (u.x - v.x) = 0 ∧ (u.y - v.y) * (u.y - v.y) = 0 ∧
        (u.z - v.z) * (u.z - v.z) = 0 := by
      simp only [Vec3.length_squared, Vec3.sub_def] at heq
      refine ⟨?_, ?_, ?_⟩ <;>
        nlinarith [mul_self_nonneg (u.x - v.x), mul_self_nonneg (u.y - v.y),
          mul_self_nonneg (u.z - v.z)]
    ext
    · nlinarith [hx.1]
    · nlinarith [hx.2.1]
    · nlinarith [hx.2.2]

theorem dot_unit_self (v : Vec3) (h : 0 < v.length_squared) :
    dot (unit_vector v) (unit_vector v) = 1 := by
  have hsq : Real.sqrt v.length_squared * Real.sqrt v.length_squared
      = v.length_squared := Real.mul_self_sqrt h.le
  simp only [unit_vector, Vec3.divS, Vec3.length, dot]
  rw [div_mul_div_comm, div_mul_div_comm, div_mul_div_comm]
  rw [div_add_div_same, div_add_div_same, hsq]
  rw [show v.x * v.x + v.y * v.y + v.z * v.z = v.length_squared from rfl]
  exact div_self h.ne'

/-- C5 (amended): for distinct points, the code's pdf is
`distance² / (4π r² + ε)` — the "cosine" factor is the dot product of the
normalized connecting direction with itself, which is identically 1, not
a cosine at the emitter's surface. -/
theorem emissive_pdf_formula (e : Emissive) (hit_point light_point : Vec3)
    (h : light_point ≠ hit_point) :
    emissive_pdf e hit_point light_point
      = (light_point - hit_point).length_squared
        / (4 * Real.pi * e.radius * e.radius + 1e-4) := by
  have hls := length_squared_pos_of_ne light_point hit_point h
  rw [emissive_pdf]
  rw [dot_unit_self _ hls]
  rw [max_eq_left (by norm_num : (0:ℝ) ≤ 1), one_mul]

/-- The unit-radius emitter at the origin used against C5. -/
noncomputable def c5E : Emissive := ⟨Vec3.mk3 1 1 1, Vec3.mk3 0 0 0, 1⟩

theorem c5_code_value :
    emissive_pdf c5E (Vec3.mk3 1 1 0) (Vec3.mk3 1 0 0)
      = 1 / (4 * Real.pi + 1e-4) := by
  have hne : Vec3.mk3 1 0 0 ≠ Vec3.mk3 1 1 0 := by
    intro h
    have := congrArg Vec3.y h
    simp [Vec3.mk3] at this
  have hls := length_squared_pos_of_ne (Vec3.mk3 1 0 0) (Vec3.mk3 1 1 0) hne
  rw [emissive_pdf]
  rw [dot_unit_self _ hls]
  rw [max_eq_left (by norm_num : (0:ℝ) ≤ 1), one_mul]
  have h1 : (Vec3.mk3 1 0 0 - Vec3.mk3 1 1 0).length_squared = 1 := by
    simp only [Vec3.length_squared, Vec3.sub_def, Vec3.mk3]
    norm_num
  rw [h1]
  simp only [c5E]
  norm_num

theorem c5_claimed_value :
    emissive_pdf_claimed c5E (Vec3.mk3 1 1 0) (Vec3.mk3 1 0 0)
      = 1 / 1e-4 := by
  rw [emissive_pdf_claimed]
  have hdiff : Vec3.mk3 1 1 0 - Vec3.mk3 1 0 0 = Vec3.mk3 0 1 0 := by
    simp only [Vec3.sub_def, Vec3.mk3]
    norm_num
  have hunit : unit_vector (Vec3.mk3 0 1 0) = Vec3.mk3 0 1 0 := by
    simp only [unit_vector, Vec3.divS, Vec3.length, Vec3.length_squared,
      Vec3.mk3]
    rw [show (0:ℝ) * 0 + 1 * 1 + 0 * 0 = 1 by norm_num, Real.sqrt_one]
    norm_num
  rw [hdiff, hunit]
  have hdot : dot ((Vec3.mk3 1 0 0 - c5E.position).divS c5E.radius)
      (Vec3.mk3 0 1 0) = 0 := by
    simp only [dot, Vec3.divS, Vec3.sub_def, Vec3.mk3, c5E]
    norm_num
  rw [hdot]
  have hls : (Vec3.mk3 1 0 0 - Vec3.mk3 1 1 0).length_squared = 1 := by
    simp only [Vec3.length_squared, Vec3.sub_def, Vec3.mk3]
    norm_num
  rw [hls, max_eq_left (le_refl 0), zero_mul, zero_add]

/-- Counterexample for C5: at a light sample seen edge-on (cosine at the
light is 0) the code's pdf is `1/(4π + ε)` while the claimed
cosine-weighted formula gives `1/ε`; they differ. -/
theorem emissive_pdf_ignores_light_cosine :
    emissive_pdf c5E (Vec3.mk3 1 1 0) (Vec3.mk3 1 0 0)
      = 1 / (4 * Real.pi + 1e-4) ∧
    emissive_pdf_claimed c5E (Vec3.mk3 1 1 0) (Vec3.mk3 1 0 0) = 1 / 1e-4 ∧
    emissive_pdf c5E (Vec3.mk3 1 1 0) (Vec3.mk3 1 0 0)
      ≠ emissive_pdf_claimed c5E (Vec3.mk3 1 1 0) (Vec3.mk3 1 0 0) := by
  refine ⟨c5_code_value, c5_claimed_value, ?_⟩
  rw [c5_code_value, c5_claimed_value]
  intro h
  have hpi := Real.pi_pos
  have hlt : (1 : ℝ) / (4 * Real.pi + 1e-4) < 1 / 1e-4 := by
    apply one_div_lt_one_div_of_lt
    · norm_num
    · linarith
  exact absurd h (ne_of_lt hlt)

/-- Witness for the amended C5 theorem at concrete distinct points. -/
theorem emissive_pdf_formula_witness :
    emissive_pdf c5E (Vec3.mk3 1 1 0) (Vec3.mk3 1 0 0)
      = (Vec3.mk3 1 0 0 - Vec3.mk3 1 1 0).length_squared
        / (4 * Real.pi * c5E.radius * c5E.radius + 1e-4) := by
  apply emissive_pdf_formula
  intro h
  have := congrArg Vec3.y h
  simp [Vec3.mk3] at this

/-! ### BRDF helpers (`material/brdf.rs`)

The `crust-render` crate's `brdf.rs` is absent from this source snapshot
(`material/mod.rs` declares it); the definitions below follow the sibling
copy `crates/crust-core/src/material/brdf.rs`, which exposes the same
`glam`-typed API these materials import. -/

/-- `fresnel_schlick`: `f0 + (1 - f0) * (1 - cosθ)^5`. -/
noncomputable def fresnel_schlick (cos_theta : ℝ) (f0 : Color) : Color :=
  f0 + ((1 - cos_theta) ^ 5) • (Vec3.mk3 1 1 1 - f0)

/-- `fresnel_schlick_scalar`. -/
noncomputable def fresnel_schlick_scalar (cos_theta f0 : ℝ) : ℝ :=
  f0 + (1 - f0) * (1 - cos_theta) ^ 5

/-- `schlick_weight`: `(1 - cosθ)^5`. -/
noncomputable def schlick_weight (cos_theta : ℝ) : ℝ := (1 - cos_theta) ^ 5

/-- `geometry_schlick_ggx`. -/
noncomputable def geometry_schlick_ggx (n_dot roughness : ℝ) : ℝ :=
  let k := (roughness + 1) ^ 2 / 8
  n_dot / (n_dot * (1 - k) + k)

/-- `sample_vndf_ggx` with its two `random()` draws passed explicitly. -/
noncomputable def sample_vndf_ggx (u1 u2 : ℝ) (view : Vec3) (roughness : ℝ) :
    Vec3 :=
  let v := unit_vector
    (Vec3.mk3 (roughness * view.x) (roughness * view.y) view.z)
  let lensq := v.x * v.x + v.y * v.y
  let t1t2 : Vec3 × Vec3 :=
    if lensq > 0 then
      let inv_len := 1 / Real.sqrt lensq
      (Vec3.mk3 (-v.y * inv_len) (v.x * inv_len) 0,
       Vec3.mk3 (-v.z * v.x * inv_len) (-v.z * v.y * inv_len)
         (lensq * inv_len))
    else (Vec3.mk3 1 0 0, Vec3.mk3 0 1 0)
  let r := Real.sqrt u1
  let phi := 2 * Real.pi * u2
  let t1_coeff := r * Real.cos phi
  let t2_coeff := r * Real.sin phi
  let s := 0.5 * (1 + v.z)
  let t3 := Real.sqrt (1 - u1 * s)
  let h := t1_coeff • t1t2.1 + t2_coeff • t1t2.2 + t3 • v
  unit_vector (Vec3.mk3 (roughness * h.x) (roughness * h.y) (max h.z 1e-6))

/-- `pdf_vndf_ggx`. -/
noncomputable def pdf_vndf_ggx (view half normal : Vec3) (roughness : ℝ) :
    ℝ :=
  let a2 := roughness * roughness
  let n_dot_h := max (dot normal half) 1e-6
  let v_dot_h := max (dot view half) 1e-6
  let d := a2 / (Real.pi * (n_dot_h * n_dot_h * (a2 - 1) + 1) ^ 2)
  d * n_dot_h / (4 * v_dot_h)

/-- `disney_diffuse`. -/
noncomputable def disney_diffuse (base_color : Color) (roughness : ℝ)
    (n v l h : Vec3) : Color :=
  let n_dot_l := max (dot n l) 0
  let n_dot_v := max (dot n v) 0
  let l_dot_h := max (dot l h) 0
  let fd90 := 0.5 + 2 * l_dot_h * l_dot_h * roughness
  let light_scatter := schlick_weight n_dot_l
  let view_scatter := schlick_weight n_dot_v
  ((1 / Real.pi) * (1 + (fd90 - 1) * light_scatter)
    * (1 + (fd90 - 1) * view_scatter)) • base_color

/-- `gtr1`. -/
noncomputable def gtr1 (n_dot_h alpha : ℝ) : ℝ :=
  let a2 := alpha * alpha
  let denom := Real.pi * (n_dot_h * n_dot_h * (a2 - 1) + 1) ^ 2
  (a2 - 1) / max denom 1e-4

/-- `utils::random_cosine_direction` with its draws passed explicitly. -/
noncomputable def random_cosine_direction (r1 r2 : ℝ) : Vec3 :=
  let z := Real.sqrt (1 - r2)
  let phi := 2 * Real.pi * r1
  Vec3.mk3 (Real.cos phi * Real.sqrt r2) (Real.sin phi * Real.sqrt r2) z

/-- `utils::align_to_normal` (`vec3.rs`). -/
noncomputable def align_to_normal (lcl normal : Vec3) : Vec3 :=
  let up := if |normal.z| < 0.999 then Vec3.mk3 0 0 1 else Vec3.mk3 1 0 0
  let tangent := unit_vector (cross up normal)
  let bitangent := cross normal tangent
  lcl.x • tangent + lcl.y • bitangent + lcl.z • normal

/-- `f32::lerp` (`utils::Lerp`): `a * (1 - t) + b * t`. -/
noncomputable def lerpS (a b t : ℝ) : ℝ := a * (1 - t) + b * t

/-- `Vec3::lerp` / glam `lerp`: componentwise `a * (1 - t) + b * t`. -/
noncomputable def lerpV (a b : Color) (t : ℝ) : Color :=
  (1 - t) • a + t • b

/-- `Color::max_component`. -/
noncomputable def max_component (c : Color) : ℝ := max (max c.x c.y) c.z

/-! ### `scatter_importance` of each material variant -/

/-- The trait's default `scatter_importance` (`material/material.rs`):
derives an importance sample from `scatter`, with `pdf = 1`.  The concrete
material's `scatter` outcome is the function argument (`dyn`-dispatch). -/
noncomputable def default_scatter_importance
    (scatter : Ray → HitRec → Option (Color × Ray)) (r_in : Ray)
    (rec : HitRec) : Option (Ray × Color × ℝ) :=
  match scatter r_in rec with
  | some (attenuation, scattered) =>
      let cosine := max (dot rec.normal (unit_vector scattered.dir)) 0
      some (scattered, cosine • attenuation, 1)
  | none => none

/-- `<Emissive as Material>::scatter_importance`: emitters never scatter. -/
noncomputable def emissive_scatter_importance (_e : Emissive) (_r_in : Ray)
    (_rec : HitRec) : Option (Ray × Color × ℝ) := none

/-- `CookTorrance { albedo, roughness, metallic }`. -/
structure CookTorrance where
  albedo : Color
  roughness : ℝ
  metallic : ℝ

/-- The branch of `CookTorrance::scatter_importance` that picks the lobe
(`utils::random() < 0.5`), samples a direction and returns
`(l, pdf_specular, pdf_diffuse, brdf)`, or `None` for a direction below
the horizon (the early `return None`). -/
noncomputable def cook_torrance_branch (m : CookTorrance) (rng : ℕ → ℝ)
    (r_in : Ray) (rec : HitRec) : Option (Vec3 × ℝ × ℝ × Color) :=
  let n := rec.normal
  let v := -(unit_vector r_in.dir)
    if rng 0 < 0.5 then
      let h := sample_vndf_ggx (rng 1) (rng 2) v m.roughness
      let l := -(reflect v h)
      if dot l n ≤ 0 then none
      else
        let pdf_ggx := pdf_vndf_ggx v h n m.roughness
        let cosine := max (dot n l) 1e-4
        let pdf_cosine := cosine / Real.pi
        let f0 := lerpV (Vec3.mk3 0.04 0.04 0.04) m.albedo m.metallic
        let f := fresnel_schlick (dot v h) f0
        let a := m.roughness * m.roughness
        let a2 := a * a
        let n_dot_h := max (dot n h) 1e-4
        let denom := (n_dot_h * n_dot_h * (a2 - 1) + 1) ^ 2
        let d := a2 / (Real.pi * denom)
        let g := geometry_schlick_ggx (dot n v) m.roughness *
          geometry_schlick_ggx (dot n l) m.roughness
        let spec := (d * g / (4 * dot n v * dot n l + 1e-4)) • f
        let kd := (1 - m.metallic) • (Vec3.mk3 1 1 1 - f)
        let diffuse := m.albedo.divS Real.pi
        let brdf := kd * diffuse + spec
        some (l, pdf_ggx * 0.5, pdf_cosine * 0.5, brdf)
    else
      let l_local := random_cosine_direction (rng 1) (rng 2)
      let l := align_to_normal l_local n
      if dot l n ≤ 0 then none
      else
        let h := unit_vector (v + l)
        let pdf_cosine := max (dot n l) 1e-4 / Real.pi
        let pdf_ggx := pdf_vndf_ggx v h n m.roughness
        let f0 := lerpV (Vec3.mk3 0.04 0.04 0.04) m.albedo m.metallic
        let f := fresnel_schlick (dot v h) f0
        let a := m.roughness * m.roughness
        let a2 := a * a
        let n_dot_h := max (dot n h) 1e-4
        let denom := (n_dot_h * n_dot_h * (a2 - 1) + 1) ^ 2
        let d := a2 / (Real.pi * denom)
        let g := geometry_schlick_ggx (dot n v) m.roughness *
          geometry_schlick_ggx (dot n l) m.roughness
        let spec := (d * g / (4 * dot n v * dot n l + 1e-4)) • f
        let kd := (1 - m.metallic) • (Vec3.mk3 1 1 1 - f)
        let diffuse := m.albedo.divS Real.pi
        let brdf := kd * diffuse + spec
        some (l, pdf_ggx * 0.5, pdf_cosine * 0.5, brdf)
/-- `CookTorrance::scatter_importance` (`material/cook_torrance.rs`): 50/50
GGX-specular or cosine-diffuse sampling, MIS-combined via
`balance_heuristic`; the final pdf is `(pdf_specular + pdf_diffuse)`
floored at `1e-4`.  The three `random()` draws are `rng 0` (lobe choice)
and `rng 1`, `rng 2` (2D sample). -/
noncomputable def cook_torrance_scatter_importance (m : CookTorrance)
    (rng : ℕ → ℝ) (r_in : Ray) (rec : HitRec) : Option (Ray × Color × ℝ) :=
  let n := rec.normal
  match cook_torrance_branch m rng r_in rec with
  | none => none
  | some q =>
      let weight := balance_heuristic q.2.1 q.2.2.1
      let final_pdf := q.2.1 + q.2.2.1
      let n_dot_l := max (dot n q.1) 1e-4
      some ({ orig := rec.p, dir := q.1 },
        (n_dot_l * weight) • q.2.2.2, max final_pdf 1e-4)

/-- `Disney { base_color, metallic, roughness, specular, specular_tint,
sheen, sheen_tint, clearcoat, clearcoat_gloss }`. -/
structure Disney where
  base_color : Color
  metallic : ℝ
  roughness : ℝ
  specular : ℝ
  specular_tint : ℝ
  sheen : ℝ
  sheen_tint : ℝ
  clearcoat : ℝ
  clearcoat_gloss : ℝ

/-- `Disney::scatter_importance` (`material/disney.rs`): one cosine sample
evaluates all four lobes; pdf is `max(cosθ/π, 1e-4)`. -/
noncomputable def disney_scatter_importance (m : Disney) (rng : ℕ → ℝ)
    (r_in : Ray) (rec : HitRec) : Option (Ray × Color × ℝ) :=
  let n := rec.normal
  let v := -(unit_vector r_in.dir)
  let l_local := random_cosine_direction (rng 0) (rng 1)
  let l := align_to_normal l_local n
  let h := unit_vector (v + l)
  let n_dot_l := max (dot n l) 0
  let n_dot_v := max (dot n v) 0
  let n_dot_h := max (dot n h) 0
  let l_dot_h := max (dot l h) 0
  let v_dot_h := max (dot v h) 0
  let tint := if max_component m.base_color > 0 then
      m.base_color.divS (max_component m.base_color)
    else Vec3.mk3 1 1 1
  let f0 := m.specular • lerpV (Vec3.mk3 0.04 0.04 0.04) tint m.specular_tint
  let fr := fresnel_schlick v_dot_h (lerpV f0 m.base_color m.metallic)
  let kd := (1 - m.metallic) • (Vec3.mk3 1 1 1 - fr)
  let diffuse := disney_diffuse m.base_color m.roughness n v l h
  let sheen_color := lerpV (Vec3.mk3 1 1 1) tint m.sheen_tint
  let sheen := (schlick_weight l_dot_h * m.sheen) • sheen_color
  let a := m.roughness * m.roughness
  let a2 := a * a
  let denom := (n_dot_h * n_dot_h * (a2 - 1) + 1) ^ 2
  let dD := a2 / (Real.pi * max denom 1e-4)
  let gG := min (2 * n_dot_h * n_dot_v / v_dot_h) 1 *
    min (2 * n_dot_h * n_dot_l / v_dot_h) 1
  let specular := (dD * gG / (4 * n_dot_v * n_dot_l + 1e-4)) • fr
  let h_clear := unit_vector (v + l)
  let clear_alpha := lerpS (1 - m.clearcoat_gloss) 0.1 0.001
  let dC := gtr1 (max (dot n h_clear) 0) clear_alpha
  let fC := fresnel_schlick_scalar (max (dot v h_clear) 0) 0.04
  let gC := (1 : ℝ)
  let clearcoat := m.clearcoat * dC * fC * gC / (4 * n_dot_v * n_dot_l + 1e-4)
  let total := kd * diffuse + specular + sheen +
    Vec3.mk3 clearcoat clearcoat clearcoat
  let pdf := n_dot_l / Real.pi
  some ({ orig := rec.p, dir := l }, n_dot_l • total, max pdf 1e-4)

theorem default_scatter_importance_pdf
    (scatter : Ray → HitRec → Option (Color × Ray)) (r_in : Ray)
    (rec : HitRec) (out : Ray × Color × ℝ)
    (h : default_scatter_importance scatter r_in rec = some out) :
    out.2.2 = 1 := by
  rw [default_scatter_importance] at h
  cases hs : scatter r_in rec with
  | none => rw [hs] at h; cases h
  | some q =>
    rw [hs] at h
    dsimp only at h
    rw [← Option.some_inj.mp h]

theorem cook_torrance_pdf (m : CookTorrance) (rng : ℕ → ℝ) (r_in : Ray)
    (rec : HitRec) (out : Ray × Color × ℝ)
    (h : cook_torrance_scatter_importance m rng r_in rec = some out) :
    1e-4 ≤ out.2.2 := by
  rw [cook_torrance_scatter_importance] at h
  cases hb : cook_torrance_branch m rng r_in rec with
  | none => rw [hb] at h; cases h
  | some q =>
    rw [hb] at h
    dsimp only at h
    rw [← Option.some_inj.mp h]
    exact le_max_right _ _

theorem disney_pdf (m : Disney) (rng : ℕ → ℝ) (r_in : Ray) (rec : HitRec)
    (out : Ray × Color × ℝ)
    (h : disney_scatter_importance m rng r_in rec = some out) :
    1e-4 ≤ out.2.2 := by
  rw [disney_scatter_importance] at h
  rw [← Option.some_inj.mp h]
  exact le_max_right _ _

/-- `StandardSurface` (`material/standard.rs`). -/
structure StandardSurface where
  base_color : Color
  metallic : ℝ
  roughness : ℝ
  specular : ℝ
  specular_color : Color
  transmission : ℝ
  ior : ℝ
  clearcoat : ℝ
  clearcoat_gloss : ℝ
  emission : Color
  film_thickness : ℝ
  film_ior : ℝ
  sheen : ℝ
  sheen_color : Color
  subsurface : ℝ
  subsurface_color : Color
  anisotropy : ℝ

/-- `standard.rs::sample_diffuse`. -/
noncomputable def sample_diffuse (u1 u2 : ℝ) (base_color : Color)
    (n v : Vec3) (roughness : ℝ) : Vec3 × Color :=
  let l := random_cosine_direction u1 u2
  let h := unit_vector (v + l)
  (l, disney_diffuse base_color roughness n v l h)

/-- `standard.rs::thin_film_interference` (per channel; the code's
`base * i + (1 - i) * base` combination is transcribed as written). -/
noncomputable def thin_film_interference (cos_theta : ℝ) (base_f0 : Color)
    (_ior1 ior2 thickness_nm : ℝ) : Color :=
  let chan : ℝ → ℝ → ℝ := fun wl base =>
    let delta := 2 * Real.pi * ior2 * thickness_nm * cos_theta / wl
    let interference := 0.5 + 0.5 * Real.cos delta
    base * interference + (1 - interference) * base
  Vec3.mk3 (chan 440 base_f0.x) (chan 550 base_f0.y) (chan 680 base_f0.z)

/-- `standard.rs::sample_specular`. -/
noncomputable def sample_specular (u1 u2 : ℝ) (spec_color : Color)
    (_n v : Vec3) (roughness _ior film_thickness film_ior _anisotropy : ℝ) :
    Vec3 × Color :=
  let h := sample_vndf_ggx u1 u2 v roughness
  let l := reflect (-v) h
  let f_raw := fresnel_schlick (max (dot l h) 0) spec_color
  let f_tfi := thin_film_interference (dot v h) f_raw 1 film_ior
    film_thickness
  (l, f_tfi)

/-- `standard.rs::sample_transmission`.  `utils::refract_standard` is absent
from the snapshot (the file imports it from `utils`, which does not define
it); it is abstracted as the `refr` argument. -/
noncomputable def sample_transmission
    (refr : Vec3 → Vec3 → ℝ → Option Vec3) (u1 u2 : ℝ) (n v : Vec3)
    (roughness ior : ℝ) : Vec3 × Color :=
  let eta := if dot v n > 0 then 1 / ior else ior
  let h := sample_vndf_ggx u1 u2 v roughness
  match refr v h eta with
  | some refracted =>
      let f0 := ((1 - ior) / (1 + ior)) ^ 2
      let f := fresnel_schlick_scalar (max (dot v h) 0) f0
      (refracted, Vec3.mk3 (1 - f) (1 - f) (1 - f))
  | none => (reflect v h, Vec3.mk3 1 1 1)

/-- `standard.rs::sample_clearcoat`. -/
noncomputable def sample_clearcoat (u1 u2 : ℝ) (_n v : Vec3) (gloss : ℝ) :
    Vec3 × Color :=
  let alpha := 1 - gloss
  let h := sample_vndf_ggx u1 u2 v alpha
  let l := reflect (-v) h
  let f := fresnel_schlick_scalar (max (dot l h) 0) 0.04
  (l, Vec3.mk3 f f f)

/-- `standard.rs::sample_sheen`. -/
noncomputable def sample_sheen (u1 u2 : ℝ) (v : Vec3) (sheen_color : Color) :
    Vec3 × Color :=
  let l := random_cosine_direction u1 u2
  let h := unit_vector (v + l)
  (l, schlick_weight (max (dot l h) 0) • sheen_color)

/-- `standard.rs::sample_subsurface`. -/
noncomputable def sample_subsurface (u1 u2 : ℝ) (base_color : Color)
    (n v : Vec3) (subsurface_color : Color) (roughness : ℝ) : Vec3 × Color :=
  let l := random_cosine_direction u1 u2
  let h := unit_vector (v + l)
  let wrap := 0.5
  let nl := max (dot n l) 0 * (1 - wrap) + wrap
  (l, nl • disney_diffuse (base_color * subsurface_color) roughness n v l h)

/-- The lobe selection of `StandardSurface::scatter_importance`: picks a
lobe from `choice = r * total` and returns `(out_dir, brdf_color, pdf)`.
Only the specular lobe has a non-constant pdf; its epsilon clamp sits in
the denominator only. -/
noncomputable def standard_lobe (refr : Vec3 → Vec3 → ℝ → Option Vec3)
    (m : StandardSurface) (rng : ℕ → ℝ) (n v : Vec3) : Vec3 × Color × ℝ :=
  let base_weight := (1 - m.metallic) * (1 - m.transmission)
  let specular_weight := m.specular
  let transmission_weight := m.transmission
  let clearcoat_weight := m.clearcoat * (1 - m.metallic)
  let sheen_weight := m.sheen * (1 - m.metallic)
  let subsurface_weight := m.subsurface * (1 - m.metallic)
  let total := base_weight + specular_weight + transmission_weight +
    clearcoat_weight + sheen_weight + subsurface_weight
  let r := rng 0
  let choice := r * total
  if choice < base_weight then
    let lc := sample_diffuse (rng 2) (rng 3) m.base_color n v m.roughness
    (lc.1, lc.2, 1 / (2 * Real.pi))
  else if choice < base_weight + specular_weight then
    let lc := sample_specular (rng 2) (rng 3) m.specular_color n v
      m.roughness m.ior m.film_thickness m.film_ior m.anisotropy
    let h := unit_vector (v + lc.1)
    let d := pdf_vndf_ggx v h n m.roughness
    (lc.1, lc.2, d / (4 * max (dot lc.1 h) 1e-4))
  else if choice < base_weight + specular_weight + transmission_weight then
    let lc := sample_transmission refr (rng 2) (rng 3) n v m.roughness m.ior
    (lc.1, lc.2, 1)
  else if choice < base_weight + specular_weight + transmission_weight +
      clearcoat_weight then
    let lc := sample_clearcoat (rng 2) (rng 3) n v m.clearcoat_gloss
    (lc.1, lc.2, 1)
  else if choice < base_weight + specular_weight + transmission_weight +
      clearcoat_weight + sheen_weight then
    let lc := sample_sheen (rng 2) (rng 3) v m.sheen_color
    (lc.1, lc.2, 1)
  else
    let lc := sample_subsurface (rng 2) (rng 3) m.base_color n v
      m.subsurface_color m.roughness
    (lc.1, lc.2, 1)

/-- `StandardSurface::scatter_importance` (`material/standard.rs`): always
`Some`; draws are `rng 0`/`rng 1` for `random2()` (the second component is
discarded, as in the code) and `rng 2`/`rng 3` inside the chosen lobe. -/
noncomputable def standard_scatter_importance
    (refr : Vec3 → Vec3 → ℝ → Option Vec3) (m : StandardSurface)
    (rng : ℕ → ℝ) (ray_in : Ray) (rec : HitRec) :
    Option (Ray × Color × ℝ) :=
  let n := rec.normal
  let v := -(unit_vector ray_in.dir)
  let lobe := standard_lobe refr m rng n v
  some ({ orig := rec.p, dir := lobe.1 }, lobe.2.1, lobe.2.2)

theorem pdf_vndf_ggx_nonneg (view half normal : Vec3) (roughness : ℝ) :
    0 ≤ pdf_vndf_ggx view half normal roughness := by
  rw [pdf_vndf_ggx]
  have h1 : (0:ℝ) ≤ roughness * roughness := mul_self_nonneg _
  have h2 : (0:ℝ) ≤ Real.pi *
      (max (dot normal half) 1e-6 * max (dot normal half) 1e-6 *
        (roughness * roughness - 1) + 1) ^ 2 :=
    mul_nonneg Real.pi_pos.le (sq_nonneg _)
  have h3 : (0:ℝ) ≤ max (dot normal half) 1e-6 :=
    le_trans (by norm_num) (le_max_right _ _)
  have h4 : (0:ℝ) ≤ 4 * max (dot view half) 1e-6 := by
    have : (0:ℝ) ≤ max (dot view half) 1e-6 :=
      le_trans (by norm_num) (le_max_right _ _)
    linarith
  exact div_nonneg (mul_nonneg (div_nonneg h1 h2) h3) h4

theorem pdf_vndf_ggx_zero_roughness (view half normal : Vec3) :
    pdf_vndf_ggx view half normal 0 = 0 := by
  rw [pdf_vndf_ggx]
  norm_num

theorem standard_lobe_pdf_nonneg (refr : Vec3 → Vec3 → ℝ → Option Vec3)
    (m : StandardSurface) (rng : ℕ → ℝ) (n v : Vec3) :
    0 ≤ (standard_lobe refr m rng n v).2.2 := by
  rw [standard_lobe]
  dsimp only
  split
  · exact div_nonneg (by norm_num) (by positivity)
  · split
    · refine div_nonneg (pdf_vndf_ggx_nonneg _ _ _ _) ?_
      have : (0:ℝ) ≤ max (dot (sample_specular (rng 2) (rng 3)
          m.specular_color n v m.roughness m.ior m.film_thickness m.film_ior
          m.anisotropy).1 (unit_vector (v + (sample_specular (rng 2) (rng 3)
          m.specular_color n v m.roughness m.ior m.film_thickness m.film_ior
          m.anisotropy).1))) 1e-4 :=
        le_trans (by norm_num) (le_max_right _ _)
      linarith
    · split
      · norm_num
      · split
        · norm_num
        · split
          · norm_num
          · norm_num

theorem standard_pdf_nonneg (refr : Vec3 → Vec3 → ℝ → Option Vec3)
    (m : StandardSurface) (rng : ℕ → ℝ) (ray_in : Ray) (rec : HitRec)
    (out : Ray × Color × ℝ)
    (h : standard_scatter_importance refr m rng ray_in rec = some out) :
    0 ≤ out.2.2 := by
  rw [standard_scatter_importance] at h
  rw [← Option.some_inj.mp h]
  exact standard_lobe_pdf_nonneg refr m rng rec.normal
    (-(unit_vector ray_in.dir))

/-- The roughness-zero metallic/specular material of the C3 counterexample
(metallic 1, specular 1, everything else 0/black). -/
noncomputable def c3StdCex : StandardSurface :=
  ⟨Vec3.mk3 0 0 0, 1, 0, 1, Vec3.mk3 1 1 1, 0, 0, 0, 0, Vec3.mk3 0 0 0,
   0, 0, 0, Vec3.mk3 0 0 0, 0, Vec3.mk3 0 0 0, 0⟩

/-- The surface interaction used against C3. -/
noncomputable def c3StdRec : HitRec :=
  ⟨1, Vec3.mk3 0 0 0, Vec3.mk3 0 1 0, true⟩

/-- The incoming ray used against C3. -/
noncomputable def c3StdRay : Ray :=
  { orig := Vec3.mk3 0 0 1, dir := Vec3.mk3 0 0 (-1) }

/-- Counterexample for C3: with roughness 0 the specular lobe of
`StandardSurface::scatter_importance` returns `Some` with `pdf = 0` — the
epsilon floor is only on the denominator, so the pdf is not clamped away
from zero. -/
theorem standard_surface_zero_pdf :
    Option.map (fun out => out.2.2)
      (standard_scatter_importance (fun _ _ _ => none) c3StdCex
        (fun _ => 0) c3StdRay c3StdRec) = some 0 := by
  rw [standard_scatter_importance]
  dsimp only [Option.map]
  congr 1
  rw [standard_lobe]
  dsimp only
  rw [if_neg (by
    simp only [c3StdCex]
    norm_num)]
  rw [if_pos (by
    simp only [c3StdCex]
    norm_num)]
  dsimp only
  rw [show c3StdCex.roughness = 0 from rfl, pdf_vndf_ggx_zero_roughness,
    zero_div]

/-- C3 (amended): every variant's `scatter_importance` returns a pdf that
is strictly positive — the default fallback uses `pdf = 1`, `Emissive`
never returns `Some`, and `CookTorrance`/`Disney` floor their pdfs at
`1e-4` — except `StandardSurface`, which only guarantees `pdf ≥ 0`: its
specular lobe clamps only the denominator, and at roughness 0 the pdf is
exactly 0. -/
theorem scatter_importance_pdf_positive :
    (∀ (scatter : Ray → HitRec → Option (Color × Ray)) (r_in : Ray)
      (rec : HitRec) (out : Ray × Color × ℝ),
      default_scatter_importance scatter r_in rec = some out →
        0 < out.2.2) ∧
    (∀ (e : Emissive) (r_in : Ray) (rec : HitRec),
      emissive_scatter_importance e r_in rec = none) ∧
    (∀ (m : CookTorrance) (rng : ℕ → ℝ) (r_in : Ray) (rec : HitRec)
      (out : Ray × Color × ℝ),
      cook_torrance_scatter_importance m rng r_in rec = some out →
        0 < out.2.2) ∧
    (∀ (m : Disney) (rng : ℕ → ℝ) (r_in : Ray) (rec : HitRec)
      (out : Ray × Color × ℝ),
      disney_scatter_importance m rng r_in rec = some out → 0 < out.2.2) ∧
    (∀ (refr : Vec3 → Vec3 → ℝ → Option Vec3) (m : StandardSurface)
      (rng : ℕ → ℝ) (ray_in : Ray) (rec : HitRec) (out : Ray × Color × ℝ),
      standard_scatter_importance refr m rng ray_in rec = some out →
        0 ≤ out.2.2) := by
  refine ⟨?_, ?_, ?_, ?_, ?_⟩
  · intro scatter r_in rec out h
    rw [default_scatter_importance_pdf scatter r_in rec out h]
    norm_num
  · intro e r_in rec
    rfl
  · intro m rng r_in rec out h
    exact lt_of_lt_of_le (by norm_num) (cook_torrance_pdf m rng r_in rec out h)
  · intro m rng r_in rec out h
    exact lt_of_lt_of_le (by norm_num) (disney_pdf m rng r_in rec out h)
  · exact standard_pdf_nonneg

/-- A concrete `scatter` outcome for exercising the default fallback. -/
noncomputable def c3Scatter : Ray → HitRec → Option (Color × Ray) :=
  fun _ _ => some (Vec3.mk3 1 1 1,
    { orig := Vec3.mk3 0 0 0, dir := Vec3.mk3 0 0 1 })

/-- The incoming ray of the C3 witness. -/
noncomputable def c3Ray : Ray :=
  { orig := Vec3.mk3 0 0 1, dir := Vec3.mk3 0 0 (-1) }

/-- The hit record of the C3 witness. -/
noncomputable def c3Rec : HitRec := ⟨1, Vec3.mk3 0 0 0, Vec3.mk3 0 0 1, true⟩

/-- A concrete Cook-Torrance material. -/
noncomputable def c3Cook : CookTorrance := ⟨Vec3.mk3 1 1 1, 0.5, 0⟩

/-- Draws steering Cook-Torrance into its diffuse lobe with the zenith
cosine sample. -/
noncomputable def c3CookRng : ℕ → ℝ := fun i => if i = 0 then 0.6 else 0

/-- A concrete Disney material. -/
noncomputable def c3Disney : Disney :=
  ⟨Vec3.mk3 1 1 1, 0, 0.5, 0.5, 0, 0, 0, 0, 0⟩

/-- A concrete emissive material. -/
noncomputable def c3Emissive : Emissive := ⟨Vec3.mk3 5 5 5, Vec3.mk3 0 0 0, 1⟩

theorem c3_rcd_eval :
    random_cosine_direction (c3CookRng 1) (c3CookRng 2) = Vec3.mk3 0 0 1 := by
  rw [show c3CookRng 1 = 0 from rfl, show c3CookRng 2 = 0 from rfl,
    random_cosine_direction]
  rw [mul_zero, Real.cos_zero, Real.sin_zero, Real.sqrt_zero]
  norm_num [Real.sqrt_one]

theorem c3_unit_0n1 : unit_vector (Vec3.mk3 0 (-1) 0) = Vec3.mk3 0 (-1) 0 := by
  rw [unit_vector, Vec3.length, Vec3.length_squared]
  simp only [Vec3.mk3, Vec3.divS]
  rw [show (0:ℝ) * 0 + -1 * -1 + 0 * 0 = 1 by norm_num, Real.sqrt_one]
  norm_num

theorem c3_align_eval :
    align_to_normal (Vec3.mk3 0 0 1) (Vec3.mk3 0 0 1) = Vec3.mk3 0 0 1 := by
  rw [align_to_normal]
  rw [if_neg (by
    simp only [Vec3.mk3]
    rw [show |(1:ℝ)| = 1 from abs_one]
    norm_num)]
  have hcross1 : cross (Vec3.mk3 1 0 0) (Vec3.mk3 0 0 1)
      = Vec3.mk3 0 (-1) 0 := by
    simp only [cross, Vec3.mk3]
    norm_num
  rw [hcross1, c3_unit_0n1]
  have hcross2 : cross (Vec3.mk3 0 0 1) (Vec3.mk3 0 (-1) 0)
      = Vec3.mk3 1 0 0 := by
    simp only [cross, Vec3.mk3]
    norm_num
  rw [hcross2]
  simp only [Vec3.mk3, Vec3.smul_def, Vec3.add_def]
  norm_num

theorem c3_cook_branch_some :
    ∃ q, cook_torrance_branch c3Cook c3CookRng c3Ray c3Rec = some q := by
  rw [cook_torrance_branch]
  dsimp only
  rw [if_neg (by
    rw [show c3CookRng 0 = 0.6 from rfl]
    norm_num)]
  rw [show c3Rec.normal = Vec3.mk3 0 0 1 from rfl, c3_rcd_eval, c3_align_eval]
  rw [if_neg (by
    simp only [dot, Vec3.mk3]
    norm_num)]
  exact ⟨_, rfl⟩

/-- Witness for the C3 theorem: concrete applications of each conjunct
(with `Option.getD` extracting the returned triple; the default value's
pdf is `-1`, so positivity genuinely uses the `Some` result). -/
theorem scatter_importance_pdf_positive_witness :
    0 < ((default_scatter_importance c3Scatter c3Ray c3Rec).getD
      (c3Ray, Vec3.mk3 0 0 0, -1)).2.2 ∧
    emissive_scatter_importance c3Emissive c3Ray c3Rec = none ∧
    0 < ((cook_torrance_scatter_importance c3Cook c3CookRng c3Ray
      c3Rec).getD (c3Ray, Vec3.mk3 0 0 0, -1)).2.2 ∧
    0 < ((disney_scatter_importance c3Disney c3CookRng c3Ray c3Rec).getD
      (c3Ray, Vec3.mk3 0 0 0, -1)).2.2 ∧
    0 ≤ ((standard_scatter_importance (fun _ _ _ => none) c3StdCex
      (fun _ => 0) c3StdRay c3StdRec).getD
      (c3Ray, Vec3.mk3 0 0 0, -1)).2.2 := by
  refine ⟨?_, scatter_importance_pdf_positive.2.1 c3Emissive c3Ray c3Rec,
    ?_, ?_, ?_⟩
  · cases heq : default_scatter_importance c3Scatter c3Ray c3Rec with
    | none =>
      rw [default_scatter_importance] at heq
      exact absurd heq (by simp [c3Scatter])
    | some out =>
      exact scatter_importance_pdf_positive.1 c3Scatter c3Ray c3Rec out heq
  · cases heq : cook_torrance_scatter_importance c3Cook c3CookRng c3Ray
        c3Rec with
    | none =>
      exfalso
      obtain ⟨q, hq⟩ := c3_cook_branch_some
      rw [cook_torrance_scatter_importance, hq] at heq
      cases heq
    | some out =>
      exact scatter_importance_pdf_positive.2.2.1 c3Cook c3CookRng c3Ray
        c3Rec out heq
  · cases heq : disney_scatter_importance c3Disney c3CookRng c3Ray c3Rec with
    | none =>
      rw [disney_scatter_importance] at heq
      cases heq
    | some out =>
      exact scatter_importance_pdf_positive.2.2.2.1 c3Disney c3CookRng c3Ray
        c3Rec out heq
  · cases heq : standard_scatter_importance (fun _ _ _ => none) c3StdCex
        (fun _ => 0) c3StdRay c3StdRec with
    | none =>
      rw [standard_scatter_importance] at heq
      cases heq
    | some out =>
      exact scatter_importance_pdf_positive.2.2.2.2 (fun _ _ _ => none)
        c3StdCex (fun _ => 0) c3StdRay c3StdRec out heq

/-! ### The integrator (`tracer.rs::ray_color`) -/

/-- A material as the integrator sees it through `dyn Material`:
`scatter_importance` (with its internal random draws passed as a stream)
and `emitted`. -/
structure MaterialM where
  scatter_importance : Ray → HitRec → (ℕ → ℝ) → Option (Ray × Color × ℝ)
  emitted : Color

/-- A hit record whose material reference is present (the integrator
`unwrap`s `rec.mat` after a successful hit). -/
structure HitRecM where
  geom : HitRec
  mat : MaterialM

/-- A light as the integrator sees it through `dyn Light`. -/
structure LightM where
  sample_cmj : ℝ → ℝ → Vec3
  pdf : Vec3 → Vec3 → ℝ
  color : Color

/-- The world as the integrator sees it through `dyn Hittable`
(`t_max = ⊤` models `f32::INFINITY`). -/
abbrev HittableM := Ray → ℝ → WithTop ℝ → Option HitRecM

/-- `sampler.rs::generate_cmj_2d` (the `crust-core` copy; the crate's own
`sampler.rs` is absent from the snapshot): sample `(i,j)` consumes the two
`random()` draws `rng (2*(j*n+i))` and `rng (2*(j*n+i)+1)`. -/
noncomputable def generate_cmj_2d (n : ℕ) (rng : ℕ → ℝ) : List (ℝ × ℝ) :=
  (List.range n).flatMap (fun j => (List.range n).map (fun i =>
    let k : ℕ := j * n + i
    (((i : ℝ) + ((j : ℝ) + rng (2 * k)) / (n : ℝ)) / (n : ℝ),
     ((j : ℝ) + ((i : ℝ) + rng (2 * k + 1)) / (n : ℝ)) / (n : ℝ))))

/-- `tracer.rs::ray_color`: the recursive radiance estimator.  `rngs k` is
the random stream of the `k`-th randomness consumer of this invocation:
`rngs 0` feeds `generate_cmj_2d 4`, `rngs (1+i)` the `scatter_importance`
call for light `i`, `rngs (1+#lights)` the indirect `scatter_importance`
call, and the recursive call receives the streams shifted past those.
The depth check is the first statement: `if depth <= 0 { return zero }`. -/
noncomputable def ray_color (world : HittableM) (lights : List LightM)
    (rngs : ℕ → ℕ → ℝ) (r : Ray) (depth : ℤ) : Color :=
  if depth ≤ 0 then Vec3.mk3 0 0 0
  else
    let cmj_samples := generate_cmj_2d 4 (rngs 0)
    match world r 0.001 ⊤ with
    | some rec =>
        let emitted := rec.mat.emitted
        let total1 := lights.enum.foldl (fun total li =>
          let light_idx := li.1
          let light := li.2
          let uv := cmj_samples.getD (light_idx % cmj_samples.length) (0, 0)
          let light_point := light.sample_cmj uv.1 uv.2
          let light_dir := light_point - rec.geom.p
          let light_distance := light_dir.length
          let light_dir_unit := unit_vector light_dir
          let shadow_ray : Ray := { orig := rec.geom.p, dir := light_dir_unit }
          match world shadow_ray 0.001
              ((light_distance - 0.001 : ℝ) : WithTop ℝ) with
          | some _ => total
          | none =>
              let cosine := max (dot rec.geom.normal light_dir_unit) 0
              let light_pdf := light.pdf rec.geom.p light_point
              match rec.mat.scatter_importance r rec.geom
                  (rngs (1 + light_idx)) with
              | some bv =>
                  let weight := balance_heuristic light_pdf bv.2.2
                  total + (cosine * weight / light_pdf) •
                    (light.color * bv.2.1)
              | none => total) emitted
        match rec.mat.scatter_importance r rec.geom
            (rngs (1 + lights.length)) with
        | none => total1
        | some sv =>
            let scattered := sv.1
            let brdf_value := sv.2.1
            let brdf_pdf := sv.2.2
            let cosine := max (dot rec.geom.normal
              (unit_vector scattered.dir)) 0
            let add_emission :=
              match world scattered 0.001 ⊤ with
              | some light_hit =>
                  let emitted2 := light_hit.mat.emitted
                  if emitted2.length_squared > 0 then
                    let light_pdf_sum := (lights.map (fun light =>
                      light.pdf rec.geom.p light_hit.geom.p)).sum
                    let light_pdf := max (light_pdf_sum / lights.length) 1e-4
                    let weight := balance_heuristic brdf_pdf light_pdf
                    (cosine * weight / brdf_pdf) • (emitted2 * brdf_value)
                  else Vec3.mk3 0 0 0
              | none => Vec3.mk3 0 0 0
            total1 + add_emission + (cosine / brdf_pdf) •
              (brdf_value * ray_color world lights
                (fun k => rngs (k + lights.length + 2)) scattered (depth - 1))
    | none =>
        let unit_direction := unit_vector r.dir
        let t := 0.5 * (unit_direction.y + 1)
        (1 - t) • Vec3.mk3 1 1 1 + t • Vec3.mk3 0.5 0.7 1
termination_by depth.toNat
decreasing_by
  rename_i hdepth
  simp only [not_le] at hdepth
  omega

/-- C1 (amended): with `depth = 0` the integrator returns exactly zero for
every world, light list and ray — including rays hitting emissive
geometry — because the depth cutoff precedes the intersection test and
the emission read. -/
theorem ray_color_depth_zero (world : HittableM) (lights : List LightM)
    (rngs : ℕ → ℕ → ℝ) (r : Ray) :
    ray_color world lights rngs r 0 = Vec3.mk3 0 0 0 := by
  rw [ray_color]
  rw [if_pos le_rfl]

/-- The emissive material of the C1 counterexample. -/
noncomputable def c1Mat : MaterialM := ⟨fun _ _ _ => none, Vec3.mk3 5 5 5⟩

/-- A world holding one triangle carrying the emissive material. -/
noncomputable def c1World : HittableM := fun ray lo hi =>
  (triangle_hit (Vec3.mk3 0 0 0) (Vec3.mk3 0 1 0) (Vec3.mk3 0 0 1) ray lo
    hi).map (fun g => ⟨g, c1Mat⟩)

/-- Counterexample for C1: the ray hits the emissive triangle (emission
`(5,5,5)`), yet `ray_color` at depth 0 returns zero, not the first hit's
emission — the depth check precedes the emission read. -/
theorem ray_color_zero_depth_discards_emission :
    c1World cexRay 0.001 ⊤
      = some ⟨triRec (Vec3.mk3 0 0 0) (Vec3.mk3 0 1 0) (Vec3.mk3 0 0 1)
          cexRay, c1Mat⟩ ∧
    c1Mat.emitted = Vec3.mk3 5 5 5 ∧
    ray_color c1World [] (fun _ _ => 0) cexRay 0 = Vec3.mk3 0 0 0 ∧
    Vec3.mk3 0 0 0 ≠ Vec3.mk3 5 5 5 := by
  refine ⟨?_, rfl, ?_, ?_⟩
  · rw [c1World]
    have ht : triangle_hit (Vec3.mk3 0 0 0) (Vec3.mk3 0 1 0) (Vec3.mk3 0 0 1)
        cexRay 0.001 ⊤
        = some (triRec (Vec3.mk3 0 0 0) (Vec3.mk3 0 1 0) (Vec3.mk3 0 0 1)
          cexRay) := cex_prim_hit ⊤ le_top
    rw [ht]
    rfl
  · rw [ray_color]
    rw [if_pos le_rfl]
  · intro h
    have := congrArg Vec3.x h
    simp [Vec3.mk3] at this

end CrustRender
